import Mathlib

/-!
# UniWS: a WS28xx LED strand driver (Teensy LC)

A shallow embedding of `UniWS.cpp` / `UniWS.h`.

* The `UniWS` object (LED count, byte count, front and back pixel buffers, channel
  order) is the structure `UniWS`.  A pixel buffer is a list of bytes; the back
  buffer is `none` when the `backPixels` pointer is null (single buffer mode).
  The two buffers are separate lists, i.e. the caller did not hand the same
  memory to both.
* The file-static pipeline state (`state`, `packedBits`, `packedByteCount`,
  `bitCursor`, `resetBitCount`, `DMABuf`) together with the few hardware flags the
  code touches (interval timer armed, DMA enabled, `DSR_BCR`, the `FTM_CSC_DMA`
  bit, `FTM1_MOD`) is the structure `Pipeline`.  Its field `written` is a ghost
  log: every store `DMABuf[bitCursor] = v` appends `(bitCursor, v)` to it.
* Machine integers are natural numbers; a reduction modulo `2 ^ w` is written
  wherever the C arithmetic can wrap.
* The `while` and `for` loops are structural recursions on an iteration budget.
  The budget passed by the caller is never exhausted: `bitLoop_eq`,
  `runningLoop_exit` and `resettingLoop_exit` show that every loop returns with
  its own exit condition.
-/

namespace UniWSDriver

/-! ## Constants (`UniWS.cpp` lines 47-59, `UniWS.h` lines 27-33) -/

def BIT_TICKS : Nat := 30 + 10
def ONE_TICKS : Nat := 20
def ZERO_TICKS : Nat := 10

def LED_BITS : Nat := 24
def RESET_BITS : Nat := 40

def DMABUF_COUNT : Nat := 128

/-- Modelled from the spec: the macro `F_BUS` of the Teensy core headers, which are
not part of the repository; the bus clock in Hz, 24 MHz as the constants of
`UniWS.cpp` assume. -/
def F_BUS : Nat := 24000000

def WS2811_RGB : Nat := 0o012
def WS2811_RBG : Nat := 0o021
def WS2811_GRB : Nat := 0o102
def WS2811_GBR : Nat := 0o201

def WS2811_800kHz : Nat := 0o0
def WS2811_400kHz : Nat := 0o4

/-! ## Data model -/

inductive State where
  | S_IDLE
  | S_RUNNING
  | S_RESETTING
  | S_DRAINING
  deriving DecidableEq, Repr

/-- Which pixel buffer a byte pointer points into. -/
inductive Buf where
  | front
  | back
  deriving DecidableEq, Repr

/-- A `const uint8_t *` into one of the two pixel buffers. -/
structure Ptr where
  buf : Buf
  off : Nat
  deriving DecidableEq, Repr

/-- The private fields of `class UniWS`. -/
structure UniWS where
  LEDCount : Nat
  byteCount : Nat
  frontPixels : List Nat
  backPixels : Option (List Nat)
  config : Nat
  deriving DecidableEq, Repr

/-- The file-static state of `UniWS.cpp` and the hardware flags it drives. -/
structure Pipeline where
  state : State
  packedBits : Ptr
  packedByteCount : Nat
  bitCursor : Nat
  resetBitCount : Nat
  DMABuf : List Nat
  itimerOn : Bool
  itimerInterval : Nat
  dmaEnabled : Bool
  DSR_BCR : Nat
  ftmDma : Bool
  FTM1_MOD : Nat
  written : List (Nat × Nat)
  deriving DecidableEq, Repr

/-- The whole program state: one driver object and the pipeline singletons. -/
structure Sys where
  obj : UniWS
  pipe : Pipeline
  deriving DecidableEq, Repr

/-! ## Memory helpers -/

/-- The byte `*ptr`. -/
def load (u : UniWS) (ptr : Ptr) : Nat :=
  match ptr.buf with
  | Buf.front => u.frontPixels.getD ptr.off 0
  | Buf.back => (u.backPixels.getD []).getD ptr.off 0

/-- The library call `memcpy(dst, src, n)` on buffers of at least `n` bytes. -/
def memcpy (dst src : List Nat) (n : Nat) : List Nat :=
  src.take n ++ dst.drop n

/-- The library call `memset(dst, v, n)` on a buffer of at least `n` bytes. -/
def memset (dst : List Nat) (v n : Nat) : List Nat :=
  List.replicate n v ++ dst.drop n

/-- Conversion of an `int` to `uint8_t`. -/
def toU8 (x : Int) : Nat := (x % 256).toNat

/-! ## The refill producer (`unpackBits`, lines 81-109) -/

/-- The two statements `DMABuf[bitCursor] = v; bitCursor = (bitCursor + 1) % DMABUF_COUNT;`. -/
def writeSlot (p : Pipeline) (v : Nat) : Pipeline :=
  { p with
    DMABuf := p.DMABuf.set p.bitCursor v
    bitCursor := (p.bitCursor + 1) % DMABUF_COUNT
    written := p.written ++ [(p.bitCursor, v)] }

/-- The loop `for (uint8_t mask = 0x80; mask; mask >>= 1)` of lines 87-90, entered
with the current `mask`. -/
def bitLoop (byte : Nat) : Nat → Nat → Pipeline → Pipeline
  | 0, _, p => p
  | budget + 1, mask, p =>
    if mask ≠ 0 then
      bitLoop byte budget ((mask >>> 1) % 256)
        (writeSlot p (if byte &&& mask ≠ 0 then ONE_TICKS else ZERO_TICKS))
    else p

/-- Lines 86-92: the branch of the first loop taken when `packedByteCount` is not
zero (the caller decrements `avail` by 8). -/
def unpackByte (u : UniWS) (p : Pipeline) : Pipeline :=
  let byte := load u p.packedBits
  let p1 := { p with packedBits := { p.packedBits with off := p.packedBits.off + 1 } }
  let p2 := bitLoop byte 9 0x80 p1
  { p2 with packedByteCount := p2.packedByteCount - 1 }

/-- Lines 94-95: all source bytes are unpacked, start the reset hold. -/
def startReset (p : Pipeline) : Pipeline :=
  { p with state := State.S_RESETTING, resetBitCount := RESET_BITS }

/-- Lines 100-103: store one zero code (the caller decrements `avail`). -/
def resetBit (p : Pipeline) : Pipeline :=
  { writeSlot p 0 with resetBitCount := p.resetBitCount - 1 }

/-- Line 105: the reset hold is complete. -/
def startDrain (p : Pipeline) : Pipeline :=
  { p with state := State.S_DRAINING }

/-- The loop `while (state == S_RUNNING && avail >= 8)` of lines 84-97; returns the
pipeline and the value of `avail` on exit. -/
def runningLoop (u : UniWS) : Nat → Pipeline → Nat → Pipeline × Nat
  | 0, p, avail => (p, avail)
  | budget + 1, p, avail =>
    if p.state = State.S_RUNNING ∧ avail ≥ 8 then
      if p.packedByteCount ≠ 0 then
        runningLoop u budget (unpackByte u p) (avail - 8)
      else
        runningLoop u budget (startReset p) avail
    else (p, avail)

/-- The loop `while (state == S_RESETTING && avail)` of lines 98-106. -/
def resettingLoop : Nat → Pipeline → Nat → Pipeline × Nat
  | 0, p, avail => (p, avail)
  | budget + 1, p, avail =>
    if p.state = State.S_RESETTING ∧ avail ≠ 0 then
      if p.resetBitCount ≠ 0 then
        resettingLoop budget (resetBit p) (avail - 1)
      else
        resettingLoop budget (startDrain p) avail
    else (p, avail)

/-- Line 83: `avail = i1 >= i0 ? i1 - i0 : i1 + DMABUF_COUNT - i0`, stored in a
`uint16_t` (arguments are `uint16_t`). -/
def availOf (i0 i1 : Nat) : Nat :=
  if i1 ≥ i0 then i1 - i0 else (i1 + DMABUF_COUNT + 65536 - i0) % 65536

/-- Lines 107-108: `if (state == S_DRAINING) itimer.end();`. -/
def drainCheck (p : Pipeline) : Pipeline :=
  if p.state = State.S_DRAINING then { p with itimerOn := false } else p

/-- Lines 84-108: the body of `unpackBits` once `avail` has been computed. -/
def unpackAvail (u : UniWS) (p : Pipeline) (avail : Nat) : Pipeline :=
  let r1 := runningLoop u (avail / 8 + 2) p avail
  let r2 := resettingLoop (r1.2 + 2) r1.1 r1.2
  drainCheck r2.1

def unpackBits (u : UniWS) (p : Pipeline) (i0 i1 : Nat) : Pipeline :=
  unpackAvail u p (availOf i0 i1)

/-- The refill interrupt handler; `sar` is the index of the ring slot the DMA source
address register points at, read from the hardware. -/
def itimer_ISR (sar : Nat) (s : Sys) : Sys :=
  { s with pipe := unpackBits s.obj s.pipe s.pipe.bitCursor sar }

/-- The DMA completion interrupt handler. -/
def DMA_ISR (s : Sys) : Sys :=
  { s with pipe := { s.pipe with ftmDma := false, state := State.S_IDLE } }

/-! ## The public surface -/

def UniWS_clear (u : UniWS) : UniWS :=
  { u with frontPixels := memset u.frontPixels 0 u.byteCount }

/-- The method `begin()`: only the effects on the modelled state are kept. -/
def UniWS_begin (s : Sys) : Sys :=
  { obj := UniWS_clear s.obj
    pipe := { s.pipe with state := State.S_IDLE, ftmDma := false, FTM1_MOD := BIT_TICKS - 1 } }

/-- The static helper `color(red, green, blue)` on three bytes. -/
def UniWS_color (red green blue : Nat) : Int :=
  ((red <<< 16 ||| green <<< 8 ||| blue <<< 0 : Nat) : Int)

/-- Offset in the front buffer of `pixel[k]` where `pixel = frontPixels + 3 * index`. -/
def pixelOff (index k : Nat) : Nat := (3 * index) % 2 ^ 32 + k

def UniWS_getPixel (u : UniWS) (index : Nat) : Int :=
  let pixel := fun k => u.frontPixels.getD (pixelOff index k) 0
  ((pixel (u.config >>> 6 &&& 3) <<< 16 |||
    pixel (u.config >>> 3 &&& 3) <<< 8 |||
    pixel (u.config >>> 0 &&& 3) <<< 0 : Nat) : Int)

def UniWS_setPixel (u : UniWS) (index : Nat) (color : Int) : UniWS :=
  let f1 := u.frontPixels.set (pixelOff index (u.config >>> 6 &&& 3)) (toU8 (color >>> (16 : Nat)))
  let f2 := f1.set (pixelOff index (u.config >>> 3 &&& 3)) (toU8 (color >>> (8 : Nat)))
  let f3 := f2.set (pixelOff index (u.config >>> 0 &&& 3)) (toU8 (color >>> (0 : Nat)))
  { u with frontPixels := f3 }

def UniWS_busy (s : Sys) : Bool :=
  decide (s.pipe.state = State.S_RUNNING)

/-- Lines 182-186 of `show()`: copy the front buffer and point the producer at its
source. -/
def showCopy (s : Sys) : Sys :=
  match s.obj.backPixels with
  | some b =>
    { obj := { s.obj with backPixels := some (memcpy b s.obj.frontPixels s.obj.byteCount) }
      pipe := { s.pipe with packedBits := ⟨Buf.back, 0⟩ } }
  | none => { s with pipe := { s.pipe with packedBits := ⟨Buf.front, 0⟩ } }

/-- The local `unsigned int transferCount` of `show()`. -/
def transferCount (LEDCount : Nat) : Nat :=
  (LEDCount * LED_BITS + RESET_BITS) % 2 ^ 32

/-- The local `uint32_t interval` of `show()`. -/
def interval : Nat :=
  (BIT_TICKS / (F_BUS / 1000000) * DMABUF_COUNT / 2) % 2 ^ 32

/-- Lines 191-194 of `show()`: reset the counters and pre-fill the ring. -/
def showPrefill (s : Sys) : Sys :=
  let p1 := { s.pipe with
    state := State.S_RUNNING
    packedByteCount := s.obj.byteCount
    bitCursor := 0 }
  { s with pipe := unpackBits s.obj p1 0 DMABUF_COUNT }

/-- Lines 196-219 of `show()`: start the DMA, the interval timer and the
timer-counter. `DSR_BCR` receives the transfer count in bytes. -/
def showArm (s : Sys) : Sys :=
  { s with pipe := { s.pipe with
      DSR_BCR := (transferCount s.obj.LEDCount * 2) % 2 ^ 32
      dmaEnabled := true
      itimerOn := true
      itimerInterval := interval
      ftmDma := true } }

/-- The method `show()`. The two spin loops wait for an interrupt handler to change
`state`; the result is `none` when, with no interrupt arriving, the call would
spin instead of returning. -/
def UniWS_show (s : Sys) : Option Sys :=
  if s.obj.LEDCount = 0 then some s
  else if s.pipe.state = State.S_RUNNING then none
  else
    let s1 := showCopy s
    if s1.pipe.state ≠ State.S_IDLE then none
    else some (showArm (showPrefill s1))

/-- The constructor `UniWS(LEDCount, frontPixels, backPixels, config)`: `byteCount` is
`3 * LEDCount` in `uint32_t` arithmetic and `config` is a `uint8_t`. -/
def UniWS_new (LEDCount : Nat) (frontPixels : List Nat) (backPixels : Option (List Nat))
    (config : Nat) : UniWS :=
  { LEDCount := LEDCount
    byteCount := (3 * LEDCount) % 2 ^ 32
    frontPixels := frontPixels
    backPixels := backPixels
    config := config % 256 }

/-! ## Specification-side and auxiliary definitions -/

/-- The duration codes of one byte as the specification words them: eight codes, most
significant bit first, the long code for a 1 bit and the short code for a 0 bit. -/
def encodeByte (b : Nat) : List Nat :=
  (List.range 8).map (fun k => if b / 2 ^ (7 - k) % 2 = 1 then ONE_TICKS else ZERO_TICKS)

/-- The duration codes of a byte sequence, in order. -/
def encodeBytes : List Nat → List Nat
  | [] => []
  | b :: bs => encodeByte b ++ encodeBytes bs

/-- The ring slots `w, w+1, ...` (mod 128) paired with the codes stored in them. -/
def slotsFrom (w : Nat) (vs : List Nat) : List (Nat × Nat) :=
  (List.range vs.length).map (fun k => ((w + k) % DMABUF_COUNT, vs.getD k 0))

/-- The codes of a write log, in write order. -/
def codes (log : List (Nat × Nat)) : List Nat := log.map Prod.snd

/-- A run of refill interrupts, one per observed read position. -/
def ticks (rs : List Nat) (s : Sys) : Sys :=
  rs.foldl (fun t r => itimer_ISR r t) s

/-- A run of producer calls, one per value of `avail`. -/
def unpackRun (u : UniWS) (p : Pipeline) (as : List Nat) : Pipeline :=
  as.foldl (fun q a => unpackAvail u q a) p

/-- Successive stores of the codes `vs` through the write cursor. -/
def writeSlots (p : Pipeline) (vs : List Nat) : Pipeline :=
  vs.foldl writeSlot p

/-- The codes the bit loop stores, as a list. -/
def maskCodes (byte : Nat) : Nat → Nat → List Nat
  | 0, _ => []
  | budget + 1, mask =>
    if mask ≠ 0 then
      (if byte &&& mask ≠ 0 then ONE_TICKS else ZERO_TICKS) ::
        maskCodes byte budget ((mask >>> 1) % 256)
    else []

/-- The bytes of the buffer a pointer points into. -/
def bufBytes (u : UniWS) (b : Buf) : List Nat :=
  match b with
  | Buf.front => u.frontPixels
  | Buf.back => u.backPixels.getD []

/-- While a cycle is in flight the codes written so far are a prefix of the frame:
`B` is the source byte sequence, `base` the codes logged before the cycle, `src`
the buffer the producer reads. -/
def CycleInv (B base : List Nat) (src : Buf) (p : Pipeline) : Prop :=
  p.state ≠ State.S_IDLE ∧
  (p.state = State.S_RUNNING →
    p.packedBits.buf = src ∧ p.packedBits.off + p.packedByteCount = B.length ∧
      codes p.written = base ++ encodeBytes (B.take p.packedBits.off)) ∧
  (p.state = State.S_RESETTING →
    p.resetBitCount ≤ RESET_BITS ∧
      codes p.written =
        base ++ encodeBytes B ++ List.replicate (RESET_BITS - p.resetBitCount) 0) ∧
  (p.state = State.S_DRAINING →
    codes p.written = base ++ encodeBytes B ++ List.replicate RESET_BITS 0)

/-- The buffer the producer reads after the copy step of `show()`. -/
def sourceBuf (u : UniWS) : Buf :=
  match u.backPixels with
  | some _ => Buf.back
  | none => Buf.front

/-- Pipeline `q` results from `p` by storing `n` codes in the consecutive slots that
start at the write cursor of `p`. -/
def Appended (p q : Pipeline) (n : Nat) : Prop :=
  ∃ vs : List Nat, vs.length = n ∧ q.written = p.written ++ slotsFrom p.bitCursor vs ∧
    q.bitCursor = (p.bitCursor + n) % DMABUF_COUNT ∧ q.DMABuf = (writeSlots p vs).DMABuf

/-- The four channel orders of `UniWS.h`. -/
def validOrder (config : Nat) : Prop :=
  config = WS2811_RGB ∨ config = WS2811_RBG ∨ config = WS2811_GRB ∨ config = WS2811_GBR

/-- Position of a state in the order of a transfer cycle. -/
def rank : State → Nat
  | State.S_IDLE => 0
  | State.S_RUNNING => 1
  | State.S_RESETTING => 2
  | State.S_DRAINING => 3

/-- What can happen between `show()` and the end of a cycle: a refill interrupt, or a
foreground call of `setPixel` or `clear`. -/
inductive Event where
  | tick (sar : Nat)
  | setPixel (index : Nat) (color : Int)
  | clear

def applyEvent (s : Sys) : Event → Sys
  | Event.tick sar => itimer_ISR sar s
  | Event.setPixel index color => { s with obj := UniWS_setPixel s.obj index color }
  | Event.clear => { s with obj := UniWS_clear s.obj }

def run (evs : List Event) (s : Sys) : Sys :=
  evs.foldl applyEvent s

/-- The read positions of the refill interrupts of an event sequence. -/
def tickPositions : List Event → List Nat
  | [] => []
  | Event.tick sar :: evs => sar :: tickPositions evs
  | Event.setPixel _ _ :: evs => tickPositions evs
  | Event.clear :: evs => tickPositions evs

/-- Indices of `setPixel` are in range (an out-of-range index is a caller error). -/
def validEvent (u : UniWS) : Event → Prop
  | Event.setPixel index _ => index < u.LEDCount
  | _ => True

/-- An idle pipeline with a zeroed ring, as left by `begin()`. -/
def idlePipe : Pipeline :=
  { state := State.S_IDLE
    packedBits := ⟨Buf.front, 0⟩
    packedByteCount := 0
    bitCursor := 0
    resetBitCount := 0
    DMABuf := List.replicate 128 0
    itimerOn := false
    itimerInterval := 0
    dmaEnabled := false
    DSR_BCR := 0
    ftmDma := false
    FTM1_MOD := BIT_TICKS - 1
    written := [] }

/-- Six pixels (18 bytes) for the end-to-end example. -/
def sixPixels : List Nat :=
  [0xA5, 0x00, 0xFF, 0x01, 0x80, 0x7E, 1, 2, 3, 4, 5, 6, 7, 8, 9, 10, 11, 0xC3]

/-- A single-buffer strand of `N` dark LEDs (3N zero bytes) with an idle pipeline. -/
def darkStrand (N : Nat) : Sys :=
  ⟨UniWS_new N (List.replicate (3 * N) 0) none WS2811_GRB, idlePipe⟩

/-- A single-buffer system at the start of the reset hold. -/
def holdSys : Sys :=
  { obj := UniWS_new 6 sixPixels none WS2811_GRB
    pipe := { idlePipe with state := State.S_RESETTING, resetBitCount := 40, bitCursor := 16 } }

/-- The write cursor `c` lies in the circular range from `w` to `r - 1` (mod 128). -/
def inCircRange (w r c : Nat) : Prop :=
  (c + 128 - w) % 128 ≤ (r + 127 - w) % 128

/-- The system right after `show()` for the six example pixels. -/
def shownSys : Sys :=
  (UniWS_show ⟨UniWS_new 6 sixPixels none WS2811_GRB, idlePipe⟩).getD
    ⟨UniWS_new 6 sixPixels none WS2811_GRB, idlePipe⟩

/-- The operations of the driver and its interrupt handlers. -/
inductive Op where
  | tick (sar : Nat)
  | dmaDone
  | begin_
  | show_
  | busy
  | clear
  | getPixel (index : Nat)
  | setPixel (index : Nat) (color : Int)

/-- One operation on the system; `none` when `show()` would spin. -/
def step (s : Sys) : Op → Option Sys
  | Op.tick sar => some (itimer_ISR sar s)
  | Op.dmaDone => some (DMA_ISR s)
  | Op.begin_ => some (UniWS_begin s)
  | Op.show_ => UniWS_show s
  | Op.busy => some s
  | Op.clear => some { s with obj := UniWS_clear s.obj }
  | Op.getPixel _ => some s
  | Op.setPixel index color => some { s with obj := UniWS_setPixel s.obj index color }

/-- The pipeline at line 194 of `show()`, right before the call of `unpackBits`. -/
def prefillStart (s : Sys) : Pipeline :=
  { s.pipe with
    packedBits := ⟨sourceBuf s.obj, 0⟩
    state := State.S_RUNNING
    packedByteCount := s.obj.byteCount
    bitCursor := 0 }

/-! ## Writing a run of codes -/

theorem writeSlots_nil (p : Pipeline) : writeSlots p [] = p := rfl

theorem writeSlots_cons (p : Pipeline) (v : Nat) (vs : List Nat) :
    writeSlots p (v :: vs) = writeSlots (writeSlot p v) vs := rfl

theorem writeSlots_append (p : Pipeline) (vs ws : List Nat) :
    writeSlots p (vs ++ ws) = writeSlots (writeSlots p vs) ws := by
  simp [writeSlots, List.foldl_append]

theorem bitLoop_writeSlots (byte : Nat) (budget mask : Nat) (p : Pipeline) :
    bitLoop byte budget mask p = writeSlots p (maskCodes byte budget mask) := by
  induction budget generalizing mask p with
  | zero => rfl
  | succ n ih =>
    by_cases hm : mask = 0
    · simp [bitLoop, maskCodes, hm, writeSlots_nil]
    · simp only [bitLoop, maskCodes, hm, ne_eq, not_false_eq_true, if_true, writeSlots_cons]
      exact ih _ _

theorem land_pow_ne_zero (b i : Nat) : (b &&& 2 ^ i ≠ 0) ↔ b / 2 ^ i % 2 = 1 := by
  rw [Nat.and_two_pow, Nat.testBit_to_div_mod]
  by_cases h : b / 2 ^ i % 2 = 1
  · simp [h]
  · simp [h]

theorem code_of_mask (b i : Nat) :
    (if b &&& 2 ^ i ≠ 0 then ONE_TICKS else ZERO_TICKS) =
      (if b / 2 ^ i % 2 = 1 then ONE_TICKS else ZERO_TICKS) := by
  by_cases h : b / 2 ^ i % 2 = 1
  · rw [if_pos h, if_pos ((land_pow_ne_zero b i).2 h)]
  · rw [if_neg h, if_neg (fun h2 => h ((land_pow_ne_zero b i).1 h2))]

theorem maskCodes_eq (b : Nat) : maskCodes b 9 0x80 = encodeByte b := by
  have e : maskCodes b 9 0x80 =
      [if b &&& 2 ^ 7 ≠ 0 then ONE_TICKS else ZERO_TICKS,
       if b &&& 2 ^ 6 ≠ 0 then ONE_TICKS else ZERO_TICKS,
       if b &&& 2 ^ 5 ≠ 0 then ONE_TICKS else ZERO_TICKS,
       if b &&& 2 ^ 4 ≠ 0 then ONE_TICKS else ZERO_TICKS,
       if b &&& 2 ^ 3 ≠ 0 then ONE_TICKS else ZERO_TICKS,
       if b &&& 2 ^ 2 ≠ 0 then ONE_TICKS else ZERO_TICKS,
       if b &&& 2 ^ 1 ≠ 0 then ONE_TICKS else ZERO_TICKS,
       if b &&& 2 ^ 0 ≠ 0 then ONE_TICKS else ZERO_TICKS] := rfl
  rw [e]
  simp only [code_of_mask]
  rfl

/-- The `for` loop leaves with `mask == 0` after exactly eight stores. -/
theorem bitLoop_eq (b : Nat) (p : Pipeline) :
    bitLoop b 9 0x80 p = writeSlots p (encodeByte b) := by
  rw [bitLoop_writeSlots, maskCodes_eq]

theorem encodeByte_length (b : Nat) : (encodeByte b).length = 8 := by
  simp [encodeByte]

theorem encodeBytes_length (B : List Nat) : (encodeBytes B).length = 8 * B.length := by
  induction B with
  | nil => rfl
  | cons b bs ih => simp [encodeBytes, encodeByte_length, ih]; omega

theorem encodeBytes_append (A B : List Nat) :
    encodeBytes (A ++ B) = encodeBytes A ++ encodeBytes B := by
  induction A with
  | nil => rfl
  | cons a as ih => simp [encodeBytes, ih]

/-! ## What a run of stores changes -/

theorem writeSlots_state (p : Pipeline) (vs : List Nat) :
    (writeSlots p vs).state = p.state := by
  induction vs generalizing p with
  | nil => rfl
  | cons v vs ih => rw [writeSlots_cons, ih]; rfl

theorem writeSlots_packedBits (p : Pipeline) (vs : List Nat) :
    (writeSlots p vs).packedBits = p.packedBits := by
  induction vs generalizing p with
  | nil => rfl
  | cons v vs ih => rw [writeSlots_cons, ih]; rfl

theorem writeSlots_packedByteCount (p : Pipeline) (vs : List Nat) :
    (writeSlots p vs).packedByteCount = p.packedByteCount := by
  induction vs generalizing p with
  | nil => rfl
  | cons v vs ih => rw [writeSlots_cons, ih]; rfl

theorem writeSlots_resetBitCount (p : Pipeline) (vs : List Nat) :
    (writeSlots p vs).resetBitCount = p.resetBitCount := by
  induction vs generalizing p with
  | nil => rfl
  | cons v vs ih => rw [writeSlots_cons, ih]; rfl

theorem writeSlots_itimerOn (p : Pipeline) (vs : List Nat) :
    (writeSlots p vs).itimerOn = p.itimerOn := by
  induction vs generalizing p with
  | nil => rfl
  | cons v vs ih => rw [writeSlots_cons, ih]; rfl

theorem writeSlots_codes (p : Pipeline) (vs : List Nat) :
    codes (writeSlots p vs).written = codes p.written ++ vs := by
  induction vs generalizing p with
  | nil => simp [writeSlots_nil]
  | cons v vs ih => rw [writeSlots_cons, ih]; simp [writeSlot, codes]

theorem slotsFrom_nil (w : Nat) : slotsFrom w [] = [] := rfl

theorem slotsFrom_cons (w v : Nat) (vs : List Nat) (hw : w < DMABUF_COUNT) :
    slotsFrom w (v :: vs) = (w, v) :: slotsFrom ((w + 1) % DMABUF_COUNT) vs := by
  unfold slotsFrom
  rw [List.length_cons, List.range_succ_eq_map, List.map_cons, List.map_map]
  congr 1
  · simp [Nat.mod_eq_of_lt hw]
  · apply List.map_congr_left
    intro k _
    simp only [Function.comp, List.getD_cons_succ, DMABUF_COUNT] at *
    congr 1
    omega

theorem slotsFrom_length (w : Nat) (vs : List Nat) : (slotsFrom w vs).length = vs.length := by
  simp [slotsFrom]

theorem slotsFrom_codes (w : Nat) (vs : List Nat) : codes (slotsFrom w vs) = vs := by
  unfold slotsFrom codes
  rw [List.map_map]
  apply List.ext_getElem
  · simp
  · intro n h1 h2
    simp at h1 h2
    simp [List.getD_eq_getElem?_getD, h2]

theorem slotsFrom_append (w : Nat) (vs ws : List Nat) :
    slotsFrom w (vs ++ ws) = slotsFrom w vs ++ slotsFrom ((w + vs.length) % DMABUF_COUNT) ws := by
  unfold slotsFrom
  rw [List.length_append, List.range_add, List.map_append, List.map_map]
  congr 1
  · apply List.map_congr_left
    intro k hk
    simp only [List.mem_range] at hk
    simp [List.getD_eq_getElem?_getD, List.getElem?_append_left hk]
  · apply List.map_congr_left
    intro k _
    simp only [Function.comp, List.getD_eq_getElem?_getD, DMABUF_COUNT]
    rw [List.getElem?_append_right (Nat.le_add_right _ _)]
    simp only [Nat.add_sub_cancel_left]
    congr 1
    omega

/-- The log and the cursor after a run of stores entered with a cursor inside the
ring. -/
theorem writeSlots_ring (p : Pipeline) (vs : List Nat) (hw : p.bitCursor < DMABUF_COUNT) :
    (writeSlots p vs).written = p.written ++ slotsFrom p.bitCursor vs ∧
      (writeSlots p vs).bitCursor = (p.bitCursor + vs.length) % DMABUF_COUNT := by
  induction vs generalizing p with
  | nil => simp [writeSlots_nil, slotsFrom_nil, Nat.mod_eq_of_lt hw]
  | cons v vs ih =>
    have hw2 : (writeSlot p v).bitCursor < DMABUF_COUNT := by
      simp only [writeSlot, DMABUF_COUNT]; omega
    obtain ⟨h1, h2⟩ := ih (writeSlot p v) hw2
    rw [writeSlots_cons, h1, h2, slotsFrom_cons _ _ _ hw]
    constructor
    · simp [writeSlot]
    · simp only [writeSlot, List.length_cons, DMABUF_COUNT]; omega

/-! ## Field equations of the loop steps -/

@[simp] theorem startReset_state (p : Pipeline) : (startReset p).state = State.S_RESETTING := rfl

@[simp] theorem startReset_resetBitCount (p : Pipeline) : (startReset p).resetBitCount = RESET_BITS := rfl

@[simp] theorem startDrain_state (p : Pipeline) : (startDrain p).state = State.S_DRAINING := rfl

@[simp] theorem resetBit_resetBitCount (p : Pipeline) : (resetBit p).resetBitCount = p.resetBitCount - 1 := rfl

@[simp] theorem resetBit_written (p : Pipeline) : (resetBit p).written = p.written ++ [(p.bitCursor, 0)] := rfl

@[simp] theorem resetBit_bitCursor (p : Pipeline) : (resetBit p).bitCursor = (p.bitCursor + 1) % DMABUF_COUNT := rfl

@[simp] theorem startReset_packedBits (p : Pipeline) : (startReset p).packedBits = p.packedBits := rfl

@[simp] theorem startReset_packedByteCount (p : Pipeline) : (startReset p).packedByteCount = p.packedByteCount := rfl

@[simp] theorem startReset_bitCursor (p : Pipeline) : (startReset p).bitCursor = p.bitCursor := rfl

@[simp] theorem startReset_DMABuf (p : Pipeline) : (startReset p).DMABuf = p.DMABuf := rfl

@[simp] theorem startReset_itimerOn (p : Pipeline) : (startReset p).itimerOn = p.itimerOn := rfl

@[simp] theorem startReset_written (p : Pipeline) : (startReset p).written = p.written := rfl

@[simp] theorem startDrain_packedBits (p : Pipeline) : (startDrain p).packedBits = p.packedBits := rfl

@[simp] theorem startDrain_packedByteCount (p : Pipeline) : (startDrain p).packedByteCount = p.packedByteCount := rfl

@[simp] theorem startDrain_bitCursor (p : Pipeline) : (startDrain p).bitCursor = p.bitCursor := rfl

@[simp] theorem startDrain_resetBitCount (p : Pipeline) : (startDrain p).resetBitCount = p.resetBitCount := rfl

@[simp] theorem startDrain_DMABuf (p : Pipeline) : (startDrain p).DMABuf = p.DMABuf := rfl

@[simp] theorem startDrain_itimerOn (p : Pipeline) : (startDrain p).itimerOn = p.itimerOn := rfl

@[simp] theorem startDrain_written (p : Pipeline) : (startDrain p).written = p.written := rfl

@[simp] theorem resetBit_state (p : Pipeline) : (resetBit p).state = p.state := rfl

@[simp] theorem resetBit_packedBits (p : Pipeline) : (resetBit p).packedBits = p.packedBits := rfl

@[simp] theorem resetBit_packedByteCount (p : Pipeline) : (resetBit p).packedByteCount = p.packedByteCount := rfl

@[simp] theorem resetBit_itimerOn (p : Pipeline) : (resetBit p).itimerOn = p.itimerOn := rfl

@[simp] theorem drainCheck_state (p : Pipeline) : (drainCheck p).state = p.state := by
  unfold drainCheck; split <;> rfl

@[simp] theorem drainCheck_packedBits (p : Pipeline) : (drainCheck p).packedBits = p.packedBits := by
  unfold drainCheck; split <;> rfl

@[simp] theorem drainCheck_packedByteCount (p : Pipeline) : (drainCheck p).packedByteCount = p.packedByteCount := by
  unfold drainCheck; split <;> rfl

@[simp] theorem drainCheck_bitCursor (p : Pipeline) : (drainCheck p).bitCursor = p.bitCursor := by
  unfold drainCheck; split <;> rfl

@[simp] theorem drainCheck_resetBitCount (p : Pipeline) : (drainCheck p).resetBitCount = p.resetBitCount := by
  unfold drainCheck; split <;> rfl

@[simp] theorem drainCheck_DMABuf (p : Pipeline) : (drainCheck p).DMABuf = p.DMABuf := by
  unfold drainCheck; split <;> rfl

@[simp] theorem drainCheck_written (p : Pipeline) : (drainCheck p).written = p.written := by
  unfold drainCheck; split <;> rfl

/-! ## One source byte -/

theorem load_eq (u : UniWS) (ptr : Ptr) : load u ptr = (bufBytes u ptr.buf).getD ptr.off 0 := by
  unfold load bufBytes
  cases ptr.buf <;> rfl

theorem unpackByte_eq (u : UniWS) (p : Pipeline) :
    unpackByte u p =
      { writeSlots { p with packedBits := { p.packedBits with off := p.packedBits.off + 1 } }
          (encodeByte (load u p.packedBits)) with
        packedByteCount := p.packedByteCount - 1 } := by
  simp only [unpackByte, bitLoop_eq, writeSlots_packedByteCount]

theorem unpackByte_state (u : UniWS) (p : Pipeline) : (unpackByte u p).state = p.state := by
  rw [unpackByte_eq]; simp [writeSlots_state]

theorem unpackByte_packedBits (u : UniWS) (p : Pipeline) :
    (unpackByte u p).packedBits = { p.packedBits with off := p.packedBits.off + 1 } := by
  rw [unpackByte_eq]; simp [writeSlots_packedBits]

theorem unpackByte_packedByteCount (u : UniWS) (p : Pipeline) :
    (unpackByte u p).packedByteCount = p.packedByteCount - 1 := by
  rw [unpackByte_eq]

theorem unpackByte_resetBitCount (u : UniWS) (p : Pipeline) :
    (unpackByte u p).resetBitCount = p.resetBitCount := by
  rw [unpackByte_eq]; simp [writeSlots_resetBitCount]

theorem unpackByte_itimerOn (u : UniWS) (p : Pipeline) :
    (unpackByte u p).itimerOn = p.itimerOn := by
  rw [unpackByte_eq]; simp [writeSlots_itimerOn]

theorem unpackByte_codes (u : UniWS) (p : Pipeline) :
    codes (unpackByte u p).written = codes p.written ++ encodeByte (load u p.packedBits) := by
  rw [unpackByte_eq]; simp [writeSlots_codes]

theorem unpackByte_ring (u : UniWS) (p : Pipeline) (hw : p.bitCursor < DMABUF_COUNT) :
    (unpackByte u p).written =
        p.written ++ slotsFrom p.bitCursor (encodeByte (load u p.packedBits)) ∧
      (unpackByte u p).bitCursor = (p.bitCursor + 8) % DMABUF_COUNT := by
  rw [unpackByte_eq]
  have h := writeSlots_ring
    { p with packedBits := { p.packedBits with off := p.packedBits.off + 1 } }
    (encodeByte (load u p.packedBits)) hw
  rw [encodeByte_length] at h
  exact h

/-! ## The invariant of a transfer cycle -/

theorem encodeBytes_take_succ (B : List Nat) (k : Nat) (hk : k < B.length) :
    encodeBytes (B.take (k + 1)) = encodeBytes (B.take k) ++ encodeByte (B.getD k 0) := by
  rw [List.take_succ, encodeBytes_append]
  simp [List.getD_eq_getElem?_getD, List.getElem?_eq_getElem hk, encodeBytes]

theorem CycleInv_unpackByte (u : UniWS) (B base : List Nat) (src : Buf) (p : Pipeline)
    (hB : bufBytes u src = B) (hs : p.state = State.S_RUNNING) (hc : p.packedByteCount ≠ 0)
    (h : CycleInv B base src p) : CycleInv B base src (unpackByte u p) := by
  obtain ⟨_, hrun, _, _⟩ := h
  obtain ⟨h1, h2, h3⟩ := hrun hs
  have hk : p.packedBits.off < B.length := by omega
  refine ⟨?_, ?_, ?_, ?_⟩
  · rw [unpackByte_state, hs]; decide
  · intro _
    rw [unpackByte_packedBits, unpackByte_packedByteCount, unpackByte_codes, h3]
    refine ⟨h1, ?_, ?_⟩
    · show p.packedBits.off + 1 + (p.packedByteCount - 1) = B.length
      omega
    · show _ = base ++ encodeBytes (B.take (p.packedBits.off + 1))
      rw [encodeBytes_take_succ B _ hk, load_eq, h1, hB, List.append_assoc]
  · intro h4; rw [unpackByte_state, hs] at h4; exact absurd h4 (by decide)
  · intro h4; rw [unpackByte_state, hs] at h4; exact absurd h4 (by decide)

theorem CycleInv_toResetting (B base : List Nat) (src : Buf) (p : Pipeline)
    (hs : p.state = State.S_RUNNING) (hc : p.packedByteCount = 0)
    (h : CycleInv B base src p) :
    CycleInv B base src (startReset p) := by
  obtain ⟨_, hrun, _, _⟩ := h
  obtain ⟨_, h2, h3⟩ := hrun hs
  have hk : p.packedBits.off = B.length := by omega
  refine ⟨by simp, ?_, ?_, ?_⟩
  · intro h4; exact absurd h4 (by simp)
  · intro _
    refine ⟨le_refl _, ?_⟩
    show codes p.written = _
    rw [h3, hk, List.take_length]
    simp
  · intro h4; exact absurd h4 (by simp)

theorem runningLoop_stop (u : UniWS) (budget : Nat) (p : Pipeline) (avail : Nat)
    (h : ¬ (p.state = State.S_RUNNING ∧ avail ≥ 8)) :
    runningLoop u budget p avail = (p, avail) := by
  cases budget with
  | zero => rfl
  | succ n => simp only [runningLoop, if_neg h]

theorem resettingLoop_stop (budget : Nat) (p : Pipeline) (avail : Nat)
    (h : ¬ (p.state = State.S_RESETTING ∧ avail ≠ 0)) :
    resettingLoop budget p avail = (p, avail) := by
  cases budget with
  | zero => rfl
  | succ n => simp only [resettingLoop, if_neg h]

theorem CycleInv_runningLoop (u : UniWS) (B base : List Nat) (src : Buf)
    (hB : bufBytes u src = B) (budget : Nat) (p : Pipeline) (avail : Nat)
    (h : CycleInv B base src p) : CycleInv B base src (runningLoop u budget p avail).1 := by
  induction budget generalizing p avail with
  | zero => exact h
  | succ n ih =>
    by_cases hc : p.state = State.S_RUNNING ∧ avail ≥ 8
    · by_cases hb : p.packedByteCount ≠ 0
      · simp only [runningLoop, if_pos hc, if_pos hb]
        exact ih _ _ (CycleInv_unpackByte u B base src p hB hc.1 hb h)
      · simp only [runningLoop, if_pos hc, if_neg hb]
        exact ih _ _ (CycleInv_toResetting B base src p hc.1 (not_not.mp hb) h)
    · simp only [runningLoop, if_neg hc]
      exact h

theorem CycleInv_resetWrite (B base : List Nat) (src : Buf) (p : Pipeline)
    (hs : p.state = State.S_RESETTING) (hc : p.resetBitCount ≠ 0)
    (h : CycleInv B base src p) :
    CycleInv B base src (resetBit p) := by
  obtain ⟨_, _, hres, _⟩ := h
  obtain ⟨h1, h2⟩ := hres hs
  have hst : (resetBit p).state = State.S_RESETTING := hs
  refine ⟨by rw [hst]; decide, ?_, ?_, ?_⟩
  · intro h4; rw [hst] at h4; exact absurd h4 (by decide)
  · intro _
    refine ⟨?_, ?_⟩
    · show p.resetBitCount - 1 ≤ RESET_BITS
      omega
    · show codes (p.written ++ [(p.bitCursor, 0)]) =
        base ++ encodeBytes B ++ List.replicate (RESET_BITS - (p.resetBitCount - 1)) 0
      have e : RESET_BITS - (p.resetBitCount - 1) = RESET_BITS - p.resetBitCount + 1 := by
        omega
      rw [e, List.replicate_succ', ← List.append_assoc, ← h2]
      simp [codes]
  · intro h4; rw [hst] at h4; exact absurd h4 (by decide)

theorem CycleInv_toDraining (B base : List Nat) (src : Buf) (p : Pipeline)
    (hs : p.state = State.S_RESETTING) (hc : p.resetBitCount = 0)
    (h : CycleInv B base src p) :
    CycleInv B base src (startDrain p) := by
  obtain ⟨_, _, hres, _⟩ := h
  obtain ⟨_, h2⟩ := hres hs
  refine ⟨by simp, ?_, ?_, ?_⟩
  · intro h4; exact absurd h4 (by simp)
  · intro h4; exact absurd h4 (by simp)
  · intro _
    show codes p.written = _
    rw [h2, hc]
    rfl

theorem CycleInv_resettingLoop (B base : List Nat) (src : Buf)
    (budget : Nat) (p : Pipeline) (avail : Nat)
    (h : CycleInv B base src p) : CycleInv B base src (resettingLoop budget p avail).1 := by
  induction budget generalizing p avail with
  | zero => exact h
  | succ n ih =>
    by_cases hc : p.state = State.S_RESETTING ∧ avail ≠ 0
    · by_cases hb : p.resetBitCount ≠ 0
      · simp only [resettingLoop, if_pos hc, if_pos hb]
        exact ih _ _ (CycleInv_resetWrite B base src p hc.1 hb h)
      · simp only [resettingLoop, if_pos hc, if_neg hb]
        exact ih _ _ (CycleInv_toDraining B base src p hc.1 (not_not.mp hb) h)
    · simp only [resettingLoop, if_neg hc]
      exact h

theorem CycleInv_drainCheck (B base : List Nat) (src : Buf) (p : Pipeline)
    (h : CycleInv B base src p) : CycleInv B base src (drainCheck p) := by
  unfold drainCheck
  split
  · exact h
  · exact h

theorem CycleInv_unpackAvail (u : UniWS) (B base : List Nat) (src : Buf)
    (hB : bufBytes u src = B) (p : Pipeline) (avail : Nat)
    (h : CycleInv B base src p) : CycleInv B base src (unpackAvail u p avail) := by
  have h2 := CycleInv_resettingLoop B base src
    ((runningLoop u (avail / 8 + 2) p avail).2 + 2) _ (runningLoop u (avail / 8 + 2) p avail).2
    (CycleInv_runningLoop u B base src hB (avail / 8 + 2) p avail h)
  exact CycleInv_drainCheck B base src _ h2

/-! ## Runs of interrupts and the start of a cycle -/

theorem ticks_nil (s : Sys) : ticks [] s = s := rfl

theorem ticks_cons (r : Nat) (rs : List Nat) (s : Sys) :
    ticks (r :: rs) s = ticks rs (itimer_ISR r s) := rfl

theorem itimer_ISR_obj (r : Nat) (s : Sys) : (itimer_ISR r s).obj = s.obj := rfl

theorem ticks_obj (rs : List Nat) (s : Sys) : (ticks rs s).obj = s.obj := by
  induction rs generalizing s with
  | nil => rfl
  | cons r rs ih => rw [ticks_cons, ih, itimer_ISR_obj]

theorem CycleInv_ticks (B base : List Nat) (src : Buf) (rs : List Nat) (s : Sys)
    (hB : bufBytes s.obj src = B) (h : CycleInv B base src s.pipe) :
    CycleInv B base src (ticks rs s).pipe := by
  induction rs generalizing s with
  | nil => exact h
  | cons r rs ih =>
    rw [ticks_cons]
    apply ih
    · rw [itimer_ISR_obj]; exact hB
    · exact CycleInv_unpackAvail s.obj B base src hB s.pipe _ h

theorem memcpy_full (dst src : List Nat) (n : Nat) (hs : src.length = n) (hd : dst.length = n) :
    memcpy dst src n = src := by
  unfold memcpy
  rw [List.take_of_length_le (le_of_eq hs), List.drop_of_length_le (le_of_eq hd),
    List.append_nil]

theorem showCopy_pipe (s : Sys) :
    (showCopy s).pipe = { s.pipe with packedBits := ⟨sourceBuf s.obj, 0⟩ } := by
  unfold showCopy sourceBuf
  cases s.obj.backPixels <;> rfl

theorem showCopy_LEDCount (s : Sys) : (showCopy s).obj.LEDCount = s.obj.LEDCount := by
  unfold showCopy
  cases s.obj.backPixels <;> rfl

theorem showCopy_byteCount (s : Sys) : (showCopy s).obj.byteCount = s.obj.byteCount := by
  unfold showCopy
  cases s.obj.backPixels <;> rfl

theorem showCopy_front (s : Sys) : (showCopy s).obj.frontPixels = s.obj.frontPixels := by
  unfold showCopy
  cases s.obj.backPixels <;> rfl

/-- After the copy step the producer's source holds the bytes of the front buffer. -/
theorem showCopy_source (s : Sys) (hf : s.obj.frontPixels.length = s.obj.byteCount)
    (hb : ∀ b, s.obj.backPixels = some b → b.length = s.obj.byteCount) :
    bufBytes (showCopy s).obj (sourceBuf s.obj) = s.obj.frontPixels := by
  unfold showCopy sourceBuf bufBytes
  cases hbk : s.obj.backPixels with
  | none => rfl
  | some b => simp [memcpy_full b _ _ hf (hb b hbk)]

/-- Called in the idle state with at least one LED, `show()` returns without
spinning. -/
theorem show_idle (s : Sys) (hN : s.obj.LEDCount ≠ 0) (hidle : s.pipe.state = State.S_IDLE) :
    UniWS_show s = some (showArm (showPrefill (showCopy s))) := by
  unfold UniWS_show
  rw [if_neg hN, if_neg (by rw [hidle]; decide)]
  simp only [showCopy_pipe, hidle, ne_eq, not_true_eq_false, if_false]

theorem showArm_obj (s : Sys) : (showArm s).obj = s.obj := rfl
theorem showPrefill_obj (s : Sys) : (showPrefill s).obj = s.obj := rfl

theorem CycleInv_showArm (B base : List Nat) (src : Buf) (s : Sys)
    (h : CycleInv B base src s.pipe) : CycleInv B base src (showArm s).pipe := h

/-- The pre-fill of `show()` establishes the cycle invariant. -/
theorem CycleInv_show (s : Sys) (hf : s.obj.frontPixels.length = s.obj.byteCount)
    (hb : ∀ b, s.obj.backPixels = some b → b.length = s.obj.byteCount) :
    CycleInv s.obj.frontPixels (codes s.pipe.written) (sourceBuf s.obj)
      (showArm (showPrefill (showCopy s))).pipe := by
  apply CycleInv_showArm
  unfold showPrefill unpackBits
  apply CycleInv_unpackAvail _ _ _ _ (showCopy_source s hf hb)
  rw [showCopy_pipe, showCopy_byteCount]
  refine ⟨by simp, ?_, ?_, ?_⟩
  · intro _
    refine ⟨rfl, ?_, ?_⟩
    · show 0 + s.obj.byteCount = _
      omega
    · show codes s.pipe.written = _
      simp [encodeBytes]
  · intro h4; exact absurd h4 (by simp)
  · intro h4; exact absurd h4 (by simp)

theorem transferCount_eq (N : Nat) (h : 24 * N + 40 < 2 ^ 32) : transferCount N = 24 * N + 40 := by
  unfold transferCount LED_BITS RESET_BITS
  rw [Nat.mod_eq_of_lt (by omega)]
  omega

/-! ## The loops leave by their exit condition -/

theorem runningLoop_exit (u : UniWS) (budget : Nat) (p : Pipeline) (avail : Nat)
    (hb : avail / 8 + 2 ≤ budget) :
    ¬ ((runningLoop u budget p avail).1.state = State.S_RUNNING ∧
        (runningLoop u budget p avail).2 ≥ 8) := by
  induction budget generalizing p avail with
  | zero => omega
  | succ n ih =>
    by_cases hc : p.state = State.S_RUNNING ∧ avail ≥ 8
    · by_cases hz : p.packedByteCount ≠ 0
      · simp only [runningLoop, if_pos hc, if_pos hz]
        exact ih _ _ (by omega)
      · simp only [runningLoop, if_pos hc, if_neg hz]
        rw [runningLoop_stop u n _ avail (by simp)]
        simp
    · simp only [runningLoop, if_neg hc]
      exact hc

theorem resettingLoop_exit (budget : Nat) (p : Pipeline) (avail : Nat)
    (hb : avail + 2 ≤ budget) :
    ¬ ((resettingLoop budget p avail).1.state = State.S_RESETTING ∧
        (resettingLoop budget p avail).2 ≠ 0) := by
  induction budget generalizing p avail with
  | zero => omega
  | succ n ih =>
    by_cases hc : p.state = State.S_RESETTING ∧ avail ≠ 0
    · by_cases hz : p.resetBitCount ≠ 0
      · simp only [resettingLoop, if_pos hc, if_pos hz]
        exact ih _ _ (by omega)
      · simp only [resettingLoop, if_pos hc, if_neg hz]
        rw [resettingLoop_stop n _ avail (by simp)]
        simp
    · simp only [resettingLoop, if_neg hc]
      exact hc

/-! ## Every producer call appends consecutive slots -/

theorem writeSlots_DMABuf_congr (p q : Pipeline) (vs : List Nat)
    (h1 : p.DMABuf = q.DMABuf) (h2 : p.bitCursor = q.bitCursor) :
    (writeSlots p vs).DMABuf = (writeSlots q vs).DMABuf := by
  induction vs generalizing p q with
  | nil => exact h1
  | cons v vs ih =>
    rw [writeSlots_cons, writeSlots_cons]
    apply ih
    · simp [writeSlot, h1, h2]
    · simp [writeSlot, h2]

theorem Appended_refl (p : Pipeline) (hw : p.bitCursor < DMABUF_COUNT) : Appended p p 0 :=
  ⟨[], rfl, by simp [slotsFrom_nil], by simp [Nat.mod_eq_of_lt hw], rfl⟩

theorem Appended_cursor_lt (p q : Pipeline) (n : Nat) (h : Appended p q n) :
    q.bitCursor < DMABUF_COUNT := by
  obtain ⟨_, _, _, h3, _⟩ := h
  rw [h3]
  exact Nat.mod_lt _ (by decide)

theorem Appended_trans (p q r : Pipeline) (n m : Nat) (hw : p.bitCursor < DMABUF_COUNT)
    (h1 : Appended p q n) (h2 : Appended q r m) : Appended p r (n + m) := by
  obtain ⟨vs, hl1, hv1, hc1, hd1⟩ := h1
  obtain ⟨ws, hl2, hv2, hc2, hd2⟩ := h2
  refine ⟨vs ++ ws, by simp [hl1, hl2], ?_, ?_, ?_⟩
  · rw [hv2, hv1, hc1, slotsFrom_append, hl1, List.append_assoc]
  · rw [hc2, hc1]
    simp only [DMABUF_COUNT]
    omega
  · rw [hd2, writeSlots_append]
    apply writeSlots_DMABuf_congr _ _ _ hd1
    rw [hc1, (writeSlots_ring p vs hw).2, hl1]

theorem Appended_congr_left (p p2 q : Pipeline) (n : Nat) (h : Appended p2 q n)
    (h1 : p2.written = p.written) (h2 : p2.bitCursor = p.bitCursor)
    (h3 : p2.DMABuf = p.DMABuf) : Appended p q n := by
  obtain ⟨vs, hl, hv, hc, hd⟩ := h
  refine ⟨vs, hl, ?_, ?_, ?_⟩
  · rw [hv, h1, h2]
  · rw [hc, h2]
  · rw [hd]; exact writeSlots_DMABuf_congr _ _ _ h3 h2

theorem Appended_writeSlots (p : Pipeline) (vs : List Nat) (hw : p.bitCursor < DMABUF_COUNT) :
    Appended p (writeSlots p vs) vs.length :=
  ⟨vs, rfl, (writeSlots_ring p vs hw).1, (writeSlots_ring p vs hw).2, rfl⟩

theorem Appended_unpackByte (u : UniWS) (p : Pipeline) (hw : p.bitCursor < DMABUF_COUNT) :
    Appended p (unpackByte u p) 8 := by
  refine ⟨encodeByte (load u p.packedBits), encodeByte_length _, (unpackByte_ring u p hw).1,
    (unpackByte_ring u p hw).2, ?_⟩
  rw [unpackByte_eq]
  exact writeSlots_DMABuf_congr _ _ _ rfl rfl

theorem Appended_resetWrite (p : Pipeline) (hw : p.bitCursor < DMABUF_COUNT) :
    Appended p (resetBit p) 1 := by
  have h := Appended_writeSlots p [0] hw
  exact h

theorem runningLoop_appended (u : UniWS) (budget : Nat) (p : Pipeline) (avail : Nat)
    (hw : p.bitCursor < DMABUF_COUNT) :
    ∃ n, Appended p (runningLoop u budget p avail).1 n ∧
      (runningLoop u budget p avail).2 + n = avail := by
  induction budget generalizing p avail with
  | zero => exact ⟨0, Appended_refl p hw, rfl⟩
  | succ k ih =>
    by_cases hc : p.state = State.S_RUNNING ∧ avail ≥ 8
    · by_cases hz : p.packedByteCount ≠ 0
      · simp only [runningLoop, if_pos hc, if_pos hz]
        have hb := Appended_unpackByte u p hw
        obtain ⟨n, h1, h2⟩ := ih (unpackByte u p) (avail - 8) (Appended_cursor_lt _ _ _ hb)
        have ha := hc.2
        exact ⟨8 + n, Appended_trans _ _ _ _ _ hw hb h1, by omega⟩
      · simp only [runningLoop, if_pos hc, if_neg hz]
        obtain ⟨n, h1, h2⟩ := ih
          (startReset p) avail hw
        exact ⟨n, Appended_congr_left p _ _ n h1 rfl rfl rfl, h2⟩
    · simp only [runningLoop, if_neg hc]
      exact ⟨0, Appended_refl p hw, rfl⟩

theorem resettingLoop_appended (budget : Nat) (p : Pipeline) (avail : Nat)
    (hw : p.bitCursor < DMABUF_COUNT) :
    ∃ n, Appended p (resettingLoop budget p avail).1 n ∧
      (resettingLoop budget p avail).2 + n = avail := by
  induction budget generalizing p avail with
  | zero => exact ⟨0, Appended_refl p hw, rfl⟩
  | succ k ih =>
    by_cases hc : p.state = State.S_RESETTING ∧ avail ≠ 0
    · by_cases hz : p.resetBitCount ≠ 0
      · simp only [resettingLoop, if_pos hc, if_pos hz]
        have hb := Appended_resetWrite p hw
        obtain ⟨n, h1, h2⟩ := ih (resetBit p)
          (avail - 1) (Appended_cursor_lt _ _ _ hb)
        have ha := hc.2
        exact ⟨1 + n, Appended_trans _ _ _ _ _ hw hb h1, by omega⟩
      · simp only [resettingLoop, if_pos hc, if_neg hz]
        obtain ⟨n, h1, h2⟩ := ih (startDrain p) avail hw
        exact ⟨n, Appended_congr_left p _ _ n h1 rfl rfl rfl, h2⟩
    · simp only [resettingLoop, if_neg hc]
      exact ⟨0, Appended_refl p hw, rfl⟩

theorem Appended_drainCheck (p q : Pipeline) (n : Nat) (h : Appended p q n) :
    Appended p (drainCheck q) n := by
  unfold drainCheck
  split
  · exact h
  · exact h

/-- A producer call stores at most `avail` codes, in consecutive slots from the write
cursor on. -/
theorem unpackAvail_appended (u : UniWS) (p : Pipeline) (avail : Nat)
    (hw : p.bitCursor < DMABUF_COUNT) :
    ∃ n, n ≤ avail ∧ Appended p (unpackAvail u p avail) n := by
  obtain ⟨n, h1, h2⟩ := runningLoop_appended u (avail / 8 + 2) p avail hw
  obtain ⟨m, h3, h4⟩ := resettingLoop_appended
    ((runningLoop u (avail / 8 + 2) p avail).2 + 2) (runningLoop u (avail / 8 + 2) p avail).1
    (runningLoop u (avail / 8 + 2) p avail).2 (Appended_cursor_lt _ _ _ h1)
  have h5 := Appended_trans _ _ _ _ _ hw h1 h3
  refine ⟨n + m, by omega, ?_⟩
  exact Appended_drainCheck _ _ _ h5

/-! ## The ring contents after a run of stores -/

theorem writeSlots_DMABuf_length (p : Pipeline) (vs : List Nat) :
    (writeSlots p vs).DMABuf.length = p.DMABuf.length := by
  induction vs generalizing p with
  | nil => rfl
  | cons v vs ih => rw [writeSlots_cons, ih]; simp [writeSlot]

theorem writeSlots_DMABuf_other (p : Pipeline) (vs : List Nat) (i : Nat)
    (hw : p.bitCursor < DMABUF_COUNT)
    (hi : ∀ j, j < vs.length → i ≠ (p.bitCursor + j) % DMABUF_COUNT) :
    (writeSlots p vs).DMABuf.getD i 0 = p.DMABuf.getD i 0 := by
  induction vs generalizing p with
  | nil => rfl
  | cons v vs ih =>
    rw [writeSlots_cons, ih (writeSlot p v)]
    · have h0 := hi 0 (by simp)
      simp only [Nat.add_zero, Nat.mod_eq_of_lt hw] at h0
      simp only [writeSlot, List.getD_eq_getElem?_getD]
      rw [List.getElem?_set_ne (fun h => h0 h.symm)]
    · simp only [writeSlot, DMABUF_COUNT]; omega
    · intro j hj
      have h1 := hi (j + 1) (by simp; omega)
      simp only [writeSlot, DMABUF_COUNT] at h1 ⊢
      omega

theorem writeSlots_DMABuf_at (p : Pipeline) (vs : List Nat) (k : Nat)
    (hw : p.bitCursor < DMABUF_COUNT) (hlen : p.DMABuf.length = DMABUF_COUNT)
    (hvs : vs.length ≤ DMABUF_COUNT) (hk : k < vs.length) :
    (writeSlots p vs).DMABuf.getD ((p.bitCursor + k) % DMABUF_COUNT) 0 = vs.getD k 0 := by
  induction vs generalizing p k with
  | nil => simp at hk
  | cons v vs ih =>
    have hw2 : (writeSlot p v).bitCursor < DMABUF_COUNT := by
      simp only [writeSlot, DMABUF_COUNT]; omega
    simp only [List.length_cons] at hvs hk
    rw [writeSlots_cons]
    cases k with
    | zero =>
      rw [writeSlots_DMABuf_other (writeSlot p v) vs _ hw2]
      · simp only [Nat.add_zero, Nat.mod_eq_of_lt hw, writeSlot, List.getD_eq_getElem?_getD,
          List.getD_cons_zero]
        rw [List.getElem?_set_self (by rw [hlen]; exact hw)]
        simp
      · intro j hj
        simp only [writeSlot, DMABUF_COUNT] at hw hvs ⊢
        omega
    | succ k =>
      have h := ih (writeSlot p v) k hw2 (by simp [writeSlot, hlen]) (by omega) (by omega)
      rw [List.getD_cons_succ, ← h]
      congr 1
      simp only [writeSlot, DMABUF_COUNT]
      omega

/-! ## The reset hold in closed form -/

theorem unpackAvail_not_running (u : UniWS) (p : Pipeline) (avail : Nat)
    (hs : p.state ≠ State.S_RUNNING) :
    unpackAvail u p avail = drainCheck (resettingLoop (avail + 2) p avail).1 := by
  unfold unpackAvail
  simp only
  rw [runningLoop_stop u _ p avail (fun h => hs h.1)]

theorem unpackAvail_draining (u : UniWS) (p : Pipeline) (avail : Nat)
    (hs : p.state = State.S_DRAINING) : unpackAvail u p avail = drainCheck p := by
  rw [unpackAvail_not_running u p avail (by rw [hs]; decide),
    resettingLoop_stop _ p avail (by rw [hs]; simp)]

theorem unpackAvail_idle (u : UniWS) (p : Pipeline) (avail : Nat)
    (hs : p.state = State.S_IDLE) : unpackAvail u p avail = p := by
  rw [unpackAvail_not_running u p avail (by rw [hs]; decide),
    resettingLoop_stop _ p avail (by rw [hs]; simp)]
  unfold drainCheck
  rw [if_neg (by rw [hs]; decide)]

/-- The second loop entered in `S_RESETTING`: it stores `min avail resetBitCount` zero
codes and moves on to `S_DRAINING` exactly when `avail` exceeds `resetBitCount`. -/
theorem resettingLoop_spec (budget : Nat) (p : Pipeline) (avail : Nat)
    (hs : p.state = State.S_RESETTING) (hb : avail + 2 ≤ budget)
    (hw : p.bitCursor < DMABUF_COUNT) :
    (avail ≤ p.resetBitCount →
      (resettingLoop budget p avail).1.state = State.S_RESETTING ∧
      (resettingLoop budget p avail).1.resetBitCount = p.resetBitCount - avail ∧
      (resettingLoop budget p avail).1.written =
        p.written ++ slotsFrom p.bitCursor (List.replicate avail 0) ∧
      (resettingLoop budget p avail).1.bitCursor = (p.bitCursor + avail) % DMABUF_COUNT) ∧
    (p.resetBitCount < avail →
      (resettingLoop budget p avail).1.state = State.S_DRAINING ∧
      (resettingLoop budget p avail).1.written =
        p.written ++ slotsFrom p.bitCursor (List.replicate p.resetBitCount 0)) := by
  induction budget generalizing p avail with
  | zero => omega
  | succ n ih =>
    cases avail with
    | zero =>
      rw [resettingLoop_stop _ p 0 (by simp)]
      refine ⟨fun _ => ⟨hs, rfl, by simp [slotsFrom_nil], by simp [Nat.mod_eq_of_lt hw]⟩, ?_⟩
      intro h; omega
    | succ a =>
      have hc : p.state = State.S_RESETTING ∧ a + 1 ≠ 0 := ⟨hs, by omega⟩
      by_cases hz : p.resetBitCount ≠ 0
      · simp only [resettingLoop, if_pos hc, if_pos hz, Nat.add_sub_cancel]
        have hw2 : (resetBit p).bitCursor < DMABUF_COUNT := by
          rw [resetBit_bitCursor]; exact Nat.mod_lt _ (by decide)
        obtain ⟨i1, i2⟩ := ih (resetBit p) a (by rw [resetBit_state]; exact hs) (by omega) hw2
        simp only [resetBit_resetBitCount, resetBit_written, resetBit_bitCursor] at i1 i2
        have hsl : ∀ k, (p.written ++ [(p.bitCursor, 0)]) ++
            slotsFrom ((p.bitCursor + 1) % DMABUF_COUNT) (List.replicate k 0) =
            p.written ++ slotsFrom p.bitCursor (List.replicate (k + 1) 0) := by
          intro k
          rw [List.replicate_succ, slotsFrom_cons _ _ _ hw, List.append_assoc]
          rfl
        constructor
        · intro h
          obtain ⟨j1, j2, j3, j4⟩ := i1 (by omega)
          refine ⟨j1, by rw [j2]; omega, by rw [j3, hsl], ?_⟩
          rw [j4]
          simp only [DMABUF_COUNT]
          omega
        · intro h
          obtain ⟨j1, j2⟩ := i2 (by omega)
          refine ⟨j1, ?_⟩
          rw [j2, hsl]
          congr 3
          omega
      · simp only [resettingLoop, if_pos hc, if_neg hz]
        rw [resettingLoop_stop n _ _ (by simp)]
        have hz0 : p.resetBitCount = 0 := not_not.mp hz
        refine ⟨fun h => by omega, fun _ => ⟨rfl, ?_⟩⟩
        rw [hz0]
        simp [slotsFrom_nil]

theorem unpackAvail_resetting (u : UniWS) (p : Pipeline) (avail : Nat)
    (hs : p.state = State.S_RESETTING) (hw : p.bitCursor < DMABUF_COUNT) :
    (avail ≤ p.resetBitCount →
      (unpackAvail u p avail).state = State.S_RESETTING ∧
      (unpackAvail u p avail).resetBitCount = p.resetBitCount - avail ∧
      (unpackAvail u p avail).written =
        p.written ++ slotsFrom p.bitCursor (List.replicate avail 0) ∧
      (unpackAvail u p avail).bitCursor = (p.bitCursor + avail) % DMABUF_COUNT) ∧
    (p.resetBitCount < avail →
      (unpackAvail u p avail).state = State.S_DRAINING ∧
      (unpackAvail u p avail).written =
        p.written ++ slotsFrom p.bitCursor (List.replicate p.resetBitCount 0)) := by
  rw [unpackAvail_not_running u p avail (by rw [hs]; decide)]
  simp only [drainCheck_state, drainCheck_resetBitCount, drainCheck_written,
    drainCheck_bitCursor]
  exact resettingLoop_spec (avail + 2) p avail hs (le_refl _) hw

theorem unpackRun_nil (u : UniWS) (p : Pipeline) : unpackRun u p [] = p := rfl

theorem unpackRun_cons (u : UniWS) (p : Pipeline) (a : Nat) (as : List Nat) :
    unpackRun u p (a :: as) = unpackRun u (unpackAvail u p a) as := rfl

theorem unpackRun_draining (u : UniWS) (p : Pipeline) (as : List Nat)
    (hs : p.state = State.S_DRAINING) :
    (unpackRun u p as).state = State.S_DRAINING ∧ (unpackRun u p as).written = p.written := by
  induction as generalizing p with
  | nil => exact ⟨hs, rfl⟩
  | cons a as ih =>
    rw [unpackRun_cons, unpackAvail_draining u p a hs]
    obtain ⟨h1, h2⟩ := ih (drainCheck p) (by rw [drainCheck_state]; exact hs)
    exact ⟨h1, by rw [h2, drainCheck_written]⟩

theorem unpackRun_resetting (u : UniWS) (p : Pipeline) (as : List Nat)
    (hs : p.state = State.S_RESETTING) (hw : p.bitCursor < DMABUF_COUNT) :
    (as.sum ≤ p.resetBitCount →
      (unpackRun u p as).state = State.S_RESETTING ∧
      (unpackRun u p as).resetBitCount = p.resetBitCount - as.sum ∧
      (unpackRun u p as).written =
        p.written ++ slotsFrom p.bitCursor (List.replicate as.sum 0)) ∧
    (p.resetBitCount < as.sum →
      (unpackRun u p as).state = State.S_DRAINING ∧
      (unpackRun u p as).written =
        p.written ++ slotsFrom p.bitCursor (List.replicate p.resetBitCount 0)) := by
  induction as generalizing p with
  | nil =>
    refine ⟨fun _ => ⟨hs, rfl, by simp [unpackRun_nil, slotsFrom_nil]⟩, fun h => ?_⟩
    simp at h
  | cons a as ih =>
    rw [unpackRun_cons, List.sum_cons]
    obtain ⟨s1, s2⟩ := unpackAvail_resetting u p a hs hw
    by_cases ha : a ≤ p.resetBitCount
    · obtain ⟨j1, j2, j3, j4⟩ := s1 ha
      have hw2 : (unpackAvail u p a).bitCursor < DMABUF_COUNT := by
        rw [j4]; exact Nat.mod_lt _ (by decide)
      obtain ⟨i1, i2⟩ := ih (unpackAvail u p a) j1 hw2
      rw [j2, j3, j4] at i1 i2
      have hsl : ∀ k, p.written ++ slotsFrom p.bitCursor (List.replicate a 0) ++
          slotsFrom ((p.bitCursor + a) % DMABUF_COUNT) (List.replicate k 0) =
          p.written ++ slotsFrom p.bitCursor (List.replicate (a + k) 0) := by
        intro k
        rw [List.append_assoc, List.replicate_add, slotsFrom_append,
          List.length_replicate]
      constructor
      · intro h
        obtain ⟨k1, k2, k3⟩ := i1 (by omega)
        exact ⟨k1, by rw [k2]; omega, by rw [k3, hsl]⟩
      · intro h
        obtain ⟨k1, k2⟩ := i2 (by omega)
        refine ⟨k1, ?_⟩
        rw [k2, hsl]
        congr 3
        omega
    · obtain ⟨j1, j2⟩ := s2 (by omega)
      obtain ⟨k1, k2⟩ := unpackRun_draining u (unpackAvail u p a) as j1
      exact ⟨fun h => by omega, fun _ => ⟨k1, by rw [k2, j2]⟩⟩

/-! ## The pixel store -/

theorem toU8_shift (n k : Nat) : toU8 ((n : Int) >>> k) = (n >>> k) % 256 := by
  have e : ((n : Int) >>> k) = ((n >>> k : Nat) : Int) := rfl
  unfold toU8
  rw [e]
  omega

theorem pack_eq (a b c : Nat) (hb : b < 256) (hc : c < 256) :
    a <<< 16 ||| b <<< 8 ||| c <<< 0 = 65536 * a + 256 * b + c := by
  have h1 : 2 ^ 8 * b + c = 2 ^ 8 * b ||| c := Nat.mul_add_lt_is_or (by omega) b
  have h2 : 2 ^ 16 * a + (2 ^ 8 * b + c) = 2 ^ 16 * a ||| (2 ^ 8 * b + c) :=
    Nat.mul_add_lt_is_or (by omega) a
  rw [Nat.shiftLeft_eq, Nat.shiftLeft_eq, Nat.shiftLeft_eq, Nat.lor_assoc, Nat.mul_comm a,
    Nat.mul_comm b, Nat.pow_zero, Nat.mul_one, ← h1, ← h2]
  omega

theorem pack_unpack (n : Nat) (h : n < 2 ^ 24) :
    ((n >>> 16) % 256) <<< 16 ||| ((n >>> 8) % 256) <<< 8 ||| ((n >>> 0) % 256) <<< 0 = n := by
  rw [pack_eq _ _ _ (Nat.mod_lt _ (by decide)) (Nat.mod_lt _ (by decide)),
    Nat.shiftRight_eq_div_pow, Nat.shiftRight_eq_div_pow, Nat.shiftRight_eq_div_pow]
  omega

theorem unpack_pack (r g b : Nat) (hr : r < 256) (hg : g < 256) (hb : b < 256) :
    ((r <<< 16 ||| g <<< 8 ||| b <<< 0) >>> 16) % 256 = r ∧
    ((r <<< 16 ||| g <<< 8 ||| b <<< 0) >>> 8) % 256 = g ∧
    ((r <<< 16 ||| g <<< 8 ||| b <<< 0) >>> 0) % 256 = b := by
  rw [pack_eq r g b hg hb, Nat.shiftRight_eq_div_pow, Nat.shiftRight_eq_div_pow,
    Nat.shiftRight_eq_div_pow]
  omega

/-- Three stores at distinct in-range offsets, read back. -/
theorem set3_getD (f : List Nat) (o1 o2 o3 x y z : Nat)
    (h12 : o1 ≠ o2) (h13 : o1 ≠ o3) (h23 : o2 ≠ o3)
    (h1 : o1 < f.length) (h2 : o2 < f.length) (h3 : o3 < f.length) :
    (((f.set o1 x).set o2 y).set o3 z).getD o1 0 = x ∧
    (((f.set o1 x).set o2 y).set o3 z).getD o2 0 = y ∧
    (((f.set o1 x).set o2 y).set o3 z).getD o3 0 = z ∧
    (∀ j, j ≠ o1 → j ≠ o2 → j ≠ o3 →
      (((f.set o1 x).set o2 y).set o3 z).getD j 0 = f.getD j 0) := by
  simp only [List.getD_eq_getElem?_getD, List.getElem?_set, List.length_set]
  refine ⟨?_, ?_, ?_, ?_⟩
  · simp [h1, h12.symm, h13.symm]
  · simp [h2, h23.symm]
  · simp [h3]
  · intro j j1 j2 j3
    simp [Ne.symm j1, Ne.symm j2, Ne.symm j3]

theorem validOrder_perm (config : Nat) (h : validOrder config) :
    (config >>> 6 &&& 3 < 3 ∧ config >>> 3 &&& 3 < 3 ∧ config >>> 0 &&& 3 < 3) ∧
    config >>> 6 &&& 3 ≠ config >>> 3 &&& 3 ∧ config >>> 6 &&& 3 ≠ config >>> 0 &&& 3 ∧
    config >>> 3 &&& 3 ≠ config >>> 0 &&& 3 := by
  rcases h with h | h | h | h <;> rw [h] <;> decide

theorem pixelOff_eq (u : UniWS) (i k : Nat) (hi : i < u.LEDCount)
    (hlen : u.frontPixels.length = 3 * u.LEDCount) (h32 : u.frontPixels.length < 2 ^ 32) :
    pixelOff i k = 3 * i + k := by
  unfold pixelOff
  rw [Nat.mod_eq_of_lt (by omega)]

/-! ## Control flow of the producer -/

theorem runningLoop_rank (u : UniWS) (budget : Nat) (p : Pipeline) (avail : Nat) :
    rank p.state ≤ rank (runningLoop u budget p avail).1.state := by
  induction budget generalizing p avail with
  | zero => exact le_refl _
  | succ n ih =>
    by_cases hc : p.state = State.S_RUNNING ∧ avail ≥ 8
    · by_cases hz : p.packedByteCount ≠ 0
      · simp only [runningLoop, if_pos hc, if_pos hz]
        have h := ih (unpackByte u p) (avail - 8)
        rw [unpackByte_state] at h
        exact h
      · simp only [runningLoop, if_pos hc, if_neg hz]
        have h := ih (startReset p) avail
        rw [startReset_state] at h
        rw [hc.1]
        exact le_trans (by decide) h
    · simp only [runningLoop, if_neg hc]
      exact le_refl _

theorem resettingLoop_rank (budget : Nat) (p : Pipeline) (avail : Nat) :
    rank p.state ≤ rank (resettingLoop budget p avail).1.state := by
  induction budget generalizing p avail with
  | zero => exact le_refl _
  | succ n ih =>
    by_cases hc : p.state = State.S_RESETTING ∧ avail ≠ 0
    · by_cases hz : p.resetBitCount ≠ 0
      · simp only [resettingLoop, if_pos hc, if_pos hz]
        have h := ih (resetBit p) (avail - 1)
        rw [resetBit_state] at h
        exact h
      · simp only [resettingLoop, if_pos hc, if_neg hz]
        have h := ih (startDrain p) avail
        rw [startDrain_state] at h
        rw [hc.1]
        exact le_trans (by decide) h
    · simp only [resettingLoop, if_neg hc]
      exact le_refl _

/-- A producer call never moves the state backwards. -/
theorem unpackAvail_rank (u : UniWS) (p : Pipeline) (avail : Nat) :
    rank p.state ≤ rank (unpackAvail u p avail).state := by
  unfold unpackAvail
  simp only [drainCheck_state]
  exact le_trans (runningLoop_rank u _ p avail) (resettingLoop_rank _ _ _)

theorem resettingLoop_packed (budget : Nat) (p : Pipeline) (avail : Nat) :
    (resettingLoop budget p avail).1.packedBits = p.packedBits ∧
      (resettingLoop budget p avail).1.packedByteCount = p.packedByteCount := by
  induction budget generalizing p avail with
  | zero => exact ⟨rfl, rfl⟩
  | succ n ih =>
    by_cases hc : p.state = State.S_RESETTING ∧ avail ≠ 0
    · by_cases hz : p.resetBitCount ≠ 0
      · simp only [resettingLoop, if_pos hc, if_pos hz]
        exact ih (resetBit p) (avail - 1)
      · simp only [resettingLoop, if_pos hc, if_neg hz]
        exact ih (startDrain p) avail
    · rw [resettingLoop_stop _ p avail hc]
      exact ⟨rfl, rfl⟩

/-- The first loop entered in `S_RUNNING`: when all remaining bytes fit with room to
spare it ends in `S_RESETTING`, otherwise it unpacks `avail / 8` bytes and stays in
`S_RUNNING`. -/
theorem runningLoop_control (u : UniWS) (budget : Nat) (p : Pipeline) (avail : Nat)
    (hs : p.state = State.S_RUNNING) (hb : avail / 8 + 2 ≤ budget) :
    (8 * (p.packedByteCount + 1) ≤ avail →
      (runningLoop u budget p avail).1.state = State.S_RESETTING ∧
      (runningLoop u budget p avail).1.resetBitCount = RESET_BITS ∧
      (runningLoop u budget p avail).1.packedByteCount = 0 ∧
      (runningLoop u budget p avail).2 = avail - 8 * p.packedByteCount) ∧
    (avail < 8 * (p.packedByteCount + 1) →
      (runningLoop u budget p avail).1.state = State.S_RUNNING ∧
      (runningLoop u budget p avail).1.packedByteCount = p.packedByteCount - avail / 8 ∧
      (runningLoop u budget p avail).2 = avail % 8) := by
  induction budget generalizing p avail with
  | zero => omega
  | succ n ih =>
    by_cases ha : avail ≥ 8
    · have hc : p.state = State.S_RUNNING ∧ avail ≥ 8 := ⟨hs, ha⟩
      by_cases hz : p.packedByteCount ≠ 0
      · simp only [runningLoop, if_pos hc, if_pos hz]
        obtain ⟨i1, i2⟩ := ih (unpackByte u p) (avail - 8)
          (by rw [unpackByte_state]; exact hs) (by omega)
        rw [unpackByte_packedByteCount] at i1 i2
        constructor
        · intro h
          obtain ⟨j1, j2, j3, j4⟩ := i1 (by omega)
          exact ⟨j1, j2, j3, by rw [j4]; omega⟩
        · intro h
          obtain ⟨j1, j2, j3⟩ := i2 (by omega)
          exact ⟨j1, by rw [j2]; omega, by rw [j3]; omega⟩
      · simp only [runningLoop, if_pos hc, if_neg hz]
        rw [runningLoop_stop u n _ avail (by simp)]
        have hz0 : p.packedByteCount = 0 := not_not.mp hz
        constructor
        · intro _
          refine ⟨rfl, rfl, hz0, ?_⟩
          show avail = avail - 8 * p.packedByteCount
          omega
        · intro h
          omega
    · rw [runningLoop_stop u _ p avail (fun h => ha h.2)]
      refine ⟨fun h => by omega, fun _ => ⟨hs, ?_, ?_⟩⟩
      · have e : avail / 8 = 0 := by omega
        rw [e]; rfl
      · show avail = avail % 8
        omega

/-- A producer call that leaves `S_RUNNING` has unpacked every source byte. -/
theorem unpackAvail_leaves_running (u : UniWS) (p : Pipeline) (avail : Nat)
    (hs : p.state = State.S_RUNNING) (hq : (unpackAvail u p avail).state ≠ State.S_RUNNING) :
    (unpackAvail u p avail).packedByteCount = 0 := by
  obtain ⟨c1, c2⟩ := runningLoop_control u (avail / 8 + 2) p avail hs (le_refl _)
  unfold unpackAvail at hq ⊢
  simp only [drainCheck_state, drainCheck_packedByteCount] at hq ⊢
  rw [(resettingLoop_packed _ _ _).2]
  by_cases h : 8 * (p.packedByteCount + 1) ≤ avail
  · exact (c1 h).2.2.1
  · obtain ⟨j1, _, _⟩ := c2 (by omega)
    rw [resettingLoop_stop _ _ _ (by rw [j1]; simp)] at hq
    exact absurd j1 hq

/-! ## The producer reads only the buffer it points into -/

theorem unpackByte_congr (u v : UniWS) (p : Pipeline)
    (h : bufBytes u p.packedBits.buf = bufBytes v p.packedBits.buf) :
    unpackByte u p = unpackByte v p := by
  unfold unpackByte
  rw [load_eq, load_eq, h]

theorem runningLoop_congr (u v : UniWS) (budget : Nat) (p : Pipeline) (avail : Nat)
    (h : bufBytes u p.packedBits.buf = bufBytes v p.packedBits.buf) :
    runningLoop u budget p avail = runningLoop v budget p avail := by
  induction budget generalizing p avail with
  | zero => rfl
  | succ n ih =>
    by_cases hc : p.state = State.S_RUNNING ∧ avail ≥ 8
    · by_cases hz : p.packedByteCount ≠ 0
      · simp only [runningLoop, if_pos hc, if_pos hz]
        rw [← unpackByte_congr u v p h]
        apply ih
        rw [unpackByte_packedBits]
        exact h
      · simp only [runningLoop, if_pos hc, if_neg hz]
        exact ih (startReset p) avail h
    · simp only [runningLoop, if_neg hc]

theorem unpackAvail_congr (u v : UniWS) (p : Pipeline) (avail : Nat)
    (h : bufBytes u p.packedBits.buf = bufBytes v p.packedBits.buf) :
    unpackAvail u p avail = unpackAvail v p avail := by
  unfold unpackAvail
  rw [runningLoop_congr u v _ p avail h]

theorem runningLoop_buf (u : UniWS) (budget : Nat) (p : Pipeline) (avail : Nat) :
    (runningLoop u budget p avail).1.packedBits.buf = p.packedBits.buf := by
  induction budget generalizing p avail with
  | zero => rfl
  | succ n ih =>
    by_cases hc : p.state = State.S_RUNNING ∧ avail ≥ 8
    · by_cases hz : p.packedByteCount ≠ 0
      · simp only [runningLoop, if_pos hc, if_pos hz]
        rw [ih, unpackByte_packedBits]
      · simp only [runningLoop, if_pos hc, if_neg hz]
        rw [ih, startReset_packedBits]
    · simp only [runningLoop, if_neg hc]

theorem unpackAvail_buf (u : UniWS) (p : Pipeline) (avail : Nat) :
    (unpackAvail u p avail).packedBits.buf = p.packedBits.buf := by
  unfold unpackAvail
  simp only [drainCheck_packedBits]
  rw [(resettingLoop_packed _ _ _).1, runningLoop_buf]

/-! ## Leaving and not re-entering `S_RUNNING` -/

theorem unpackAvail_not_running_preserved (u : UniWS) (p : Pipeline) (avail : Nat)
    (hs : p.state ≠ State.S_RUNNING) : (unpackAvail u p avail).state ≠ State.S_RUNNING := by
  have hr := unpackAvail_rank u p avail
  cases h : p.state with
  | S_IDLE => rw [unpackAvail_idle u p avail h, h]; decide
  | S_RUNNING => exact absurd h hs
  | S_RESETTING =>
    rw [h] at hr
    intro h2
    rw [h2] at hr
    exact absurd hr (by decide)
  | S_DRAINING =>
    rw [h] at hr
    intro h2
    rw [h2] at hr
    exact absurd hr (by decide)

theorem unpackAvail_not_idle (u : UniWS) (p : Pipeline) (avail : Nat)
    (hs : p.state ≠ State.S_IDLE) : (unpackAvail u p avail).state ≠ State.S_IDLE := by
  have hr := unpackAvail_rank u p avail
  intro h2
  rw [h2] at hr
  cases h : p.state with
  | S_IDLE => exact hs h
  | S_RUNNING => rw [h] at hr; exact absurd hr (by decide)
  | S_RESETTING => rw [h] at hr; exact absurd hr (by decide)
  | S_DRAINING => rw [h] at hr; exact absurd hr (by decide)

/-- Outside `S_RUNNING` a producer call does not depend on the pixel buffers. -/
theorem unpackAvail_mem_indep (u v : UniWS) (p : Pipeline) (avail : Nat)
    (hs : p.state ≠ State.S_RUNNING) : unpackAvail u p avail = unpackAvail v p avail := by
  rw [unpackAvail_not_running u p avail hs, unpackAvail_not_running v p avail hs]

theorem ticks_mem_indep (rs : List Nat) (s t : Sys) (hp : s.pipe = t.pipe)
    (hs : s.pipe.state ≠ State.S_RUNNING) : (ticks rs s).pipe = (ticks rs t).pipe := by
  induction rs generalizing s t with
  | nil => exact hp
  | cons r rs ih =>
    rw [ticks_cons, ticks_cons]
    have e : (itimer_ISR r s).pipe = (itimer_ISR r t).pipe := by
      show unpackAvail s.obj s.pipe _ = unpackAvail t.obj t.pipe _
      rw [← hp]
      exact unpackAvail_mem_indep s.obj t.obj s.pipe _ hs
    exact ih _ _ e (unpackAvail_not_running_preserved s.obj s.pipe _ hs)

/-- The state in which the pre-fill leaves the pipeline. -/
theorem unpackAvail_running_state (u : UniWS) (p : Pipeline) (avail : Nat)
    (hs : p.state = State.S_RUNNING) :
    (8 * (p.packedByteCount + 1) ≤ avail → (unpackAvail u p avail).state ≠ State.S_RUNNING) ∧
    (avail < 8 * (p.packedByteCount + 1) → (unpackAvail u p avail).state = State.S_RUNNING) := by
  obtain ⟨c1, c2⟩ := runningLoop_control u (avail / 8 + 2) p avail hs (le_refl _)
  unfold unpackAvail
  simp only [drainCheck_state]
  constructor
  · intro h
    obtain ⟨j1, _⟩ := c1 h
    have hr := resettingLoop_rank ((runningLoop u (avail / 8 + 2) p avail).2 + 2)
      (runningLoop u (avail / 8 + 2) p avail).1 (runningLoop u (avail / 8 + 2) p avail).2
    rw [j1] at hr
    intro h2
    rw [h2] at hr
    exact absurd hr (by decide)
  · intro h
    obtain ⟨j1, _⟩ := c2 h
    rw [resettingLoop_stop _ _ _ (by rw [j1]; simp)]
    exact j1

theorem show_state (s : Sys) :
    (showArm (showPrefill (showCopy s))).pipe.state =
      (unpackAvail (showCopy s).obj
        { s.pipe with
          packedBits := ⟨sourceBuf s.obj, 0⟩
          state := State.S_RUNNING
          packedByteCount := s.obj.byteCount
          bitCursor := 0 } DMABUF_COUNT).state := by
  show (unpackBits (showCopy s).obj _ 0 DMABUF_COUNT).state = _
  rw [showCopy_pipe, showCopy_byteCount]
  rfl

/-! ## Foreground writes interleaved with refill interrupts -/

theorem run_cons (e : Event) (evs : List Event) (s : Sys) :
    run (e :: evs) s = run evs (applyEvent s e) := rfl

theorem run_back_source (evs : List Event) (s t : Sys) (hp : s.pipe = t.pipe)
    (hb : s.obj.backPixels = t.obj.backPixels) (hsrc : s.pipe.packedBits.buf = Buf.back) :
    (run evs s).pipe = (ticks (tickPositions evs) t).pipe ∧
      (run evs s).obj.backPixels = s.obj.backPixels := by
  induction evs generalizing s t with
  | nil => exact ⟨hp, rfl⟩
  | cons e evs ih =>
    rw [run_cons]
    cases e with
    | tick sar =>
      have e1 : (itimer_ISR sar s).pipe = (itimer_ISR sar t).pipe := by
        show unpackAvail s.obj s.pipe _ = unpackAvail t.obj t.pipe _
        rw [← hp]
        apply unpackAvail_congr
        rw [hsrc]
        show s.obj.backPixels.getD [] = t.obj.backPixels.getD []
        rw [hb]
      have e2 : (itimer_ISR sar s).pipe.packedBits.buf = Buf.back := by
        show (unpackAvail s.obj s.pipe _).packedBits.buf = _
        rw [unpackAvail_buf, hsrc]
      exact ih (itimer_ISR sar s) (itimer_ISR sar t) e1 hb e2
    | setPixel index color =>
      exact ih { s with obj := UniWS_setPixel s.obj index color } t hp hb hsrc
    | clear =>
      exact ih { s with obj := UniWS_clear s.obj } t hp hb hsrc

theorem ticks_buf (rs : List Nat) (s : Sys) (h : s.pipe.packedBits.buf = Buf.back) :
    (ticks rs s).pipe.packedBits.buf = Buf.back := by
  induction rs generalizing s with
  | nil => exact h
  | cons r rs ih =>
    rw [ticks_cons]
    apply ih
    show (unpackAvail s.obj s.pipe _).packedBits.buf = _
    rw [unpackAvail_buf, h]

/-- After the pre-fill `show()` leaves the state `S_RUNNING` exactly when the pixel
bytes do not fit into the ring with room to spare. -/
theorem show_running_iff (s : Sys) :
    (showArm (showPrefill (showCopy s))).pipe.state = State.S_RUNNING ↔
      DMABUF_COUNT < 8 * (s.obj.byteCount + 1) := by
  rw [show_state]
  obtain ⟨c1, c2⟩ := unpackAvail_running_state (showCopy s).obj
    { s.pipe with
      packedBits := ⟨sourceBuf s.obj, 0⟩
      state := State.S_RUNNING
      packedByteCount := s.obj.byteCount
      bitCursor := 0 } DMABUF_COUNT rfl
  constructor
  · intro h
    by_contra hlt
    exact c1 (Nat.le_of_not_lt hlt) h
  · intro h
    exact c2 h

/-! ## Claims -/

/-- C1, as stated, fails in its last clause: for N = 89478484 LEDs the bound
24N + 40 < 2^32 holds and the frame has 24N + 40 = 2147483656 codes, but the byte
count `show()` writes to `DSR_BCR`, `transferCount * sizeof (uint16_t)` in 32-bit
arithmetic, wraps to 16, i.e. 8 slots of two bytes. -/
theorem C1_programmed_count_wraps :
    24 * 89478484 + 40 < 2 ^ 32 ∧
    (darkStrand 89478484).obj.frontPixels.length = 3 * 89478484 ∧
    (darkStrand 89478484).obj.LEDCount = 89478484 ∧
    (darkStrand 89478484).pipe.state = State.S_IDLE ∧
    (encodeBytes (darkStrand 89478484).obj.frontPixels ++ List.replicate 40 0).length =
      24 * 89478484 + 40 ∧
    ∃ s0, UniWS_show (darkStrand 89478484) = some s0 ∧
      s0.pipe.DSR_BCR = 16 ∧ s0.pipe.DSR_BCR / 2 = 8 ∧
      s0.pipe.DSR_BCR ≠ 2 * (24 * 89478484 + 40) := by
  have hlen : (darkStrand 89478484).obj.frontPixels.length = 3 * 89478484 :=
    List.length_replicate _ _
  have hreg : (showArm (showPrefill (showCopy (darkStrand 89478484)))).pipe.DSR_BCR = 16 := by
    show (transferCount (showCopy (darkStrand 89478484)).obj.LEDCount * 2) % 2 ^ 32 = 16
    rw [showCopy_LEDCount]
    rfl
  refine ⟨by decide, hlen, rfl, rfl, ?_, _,
    show_idle (darkStrand 89478484) (by decide) rfl, hreg, ?_, ?_⟩
  · rw [List.length_append, encodeBytes_length, hlen, List.length_replicate]
  · rw [hreg]
  · rw [hreg]
    decide

/-- C1, amended: for every LED count N > 0 with 24N + 40 < 2^32, every pixel byte
sequence B of length 3N (single or double buffer mode) and every run of refill
interrupts with arbitrary read positions after `show()` was called in the idle
state: `show()` returns, and if the state reaches `S_DRAINING` then the codes written
to the ring during the cycle, in write order, are the encoding of B (8 codes per
byte, most significant bit first, 20 for a 1 bit, 10 for a 0 bit) followed by
exactly 40 zero codes and nothing else; there are 24N + 40 of them, which is the
transfer count `show()` computes. The byte count it writes to `DSR_BCR` is
2(24N + 40) modulo 2^32; when 2(24N + 40) < 2^32 it is 2(24N + 40), two bytes for
each of the 24N + 40 slots. -/
theorem C1_stream_is_encoded_frame (N : Nat) (B : List Nat) (back : Option (List Nat))
    (config : Nat) (p : Pipeline) (rs : List Nat)
    (hN : 0 < N) (hov : 24 * N + 40 < 2 ^ 32) (hB : B.length = 3 * N)
    (hback : ∀ b, back = some b → b.length = 3 * N) (hidle : p.state = State.S_IDLE) :
    ∃ s0, UniWS_show ⟨UniWS_new N B back config, p⟩ = some s0 ∧
      s0.pipe.DSR_BCR = (2 * (24 * N + 40)) % 2 ^ 32 ∧
      (2 * (24 * N + 40) < 2 ^ 32 →
        s0.pipe.DSR_BCR = 2 * (24 * N + 40) ∧ s0.pipe.DSR_BCR / 2 = 24 * N + 40) ∧
      transferCount N = 24 * N + 40 ∧
      ((ticks rs s0).pipe.state = State.S_DRAINING →
        codes (ticks rs s0).pipe.written =
            codes p.written ++ (encodeBytes B ++ List.replicate 40 0) ∧
          (encodeBytes B ++ List.replicate 40 0).length = 24 * N + 40 ∧
          (encodeBytes B ++ List.replicate 40 0).length = transferCount N) := by
  have hbc : (UniWS_new N B back config).byteCount = 3 * N := by
    show (3 * N) % 2 ^ 32 = 3 * N
    exact Nat.mod_eq_of_lt (by omega)
  have hf : (UniWS_new N B back config).frontPixels.length =
      (UniWS_new N B back config).byteCount := by rw [hbc]; exact hB
  have hb : ∀ b, (UniWS_new N B back config).backPixels = some b →
      b.length = (UniWS_new N B back config).byteCount := by
    intro b h; rw [hbc]; exact hback b h
  have htc := transferCount_eq N hov
  have hreg : (showArm (showPrefill (showCopy ⟨UniWS_new N B back config, p⟩))).pipe.DSR_BCR =
      (2 * (24 * N + 40)) % 2 ^ 32 := by
    show (transferCount (showCopy ⟨UniWS_new N B back config, p⟩).obj.LEDCount * 2) % 2 ^ 32 = _
    rw [showCopy_LEDCount]
    show (transferCount N * 2) % 2 ^ 32 = _
    rw [htc, Nat.mul_comm]
  refine ⟨_, show_idle ⟨UniWS_new N B back config, p⟩ (Nat.pos_iff_ne_zero.mp hN) hidle,
    hreg, ?_, htc, ?_⟩
  · intro h2
    rw [hreg, Nat.mod_eq_of_lt h2]
    exact ⟨rfl, by omega⟩
  intro hd
  have hinv := CycleInv_ticks B (codes p.written) (sourceBuf (UniWS_new N B back config)) rs
    (showArm (showPrefill (showCopy ⟨UniWS_new N B back config, p⟩)))
    (showCopy_source ⟨UniWS_new N B back config, p⟩ hf hb)
    (CycleInv_show ⟨UniWS_new N B back config, p⟩ hf hb)
  obtain ⟨_, _, _, hdr⟩ := hinv
  have hlen : (encodeBytes B ++ List.replicate 40 0).length = 24 * N + 40 := by
    rw [List.length_append, encodeBytes_length, List.length_replicate, hB]
    omega
  refine ⟨?_, hlen, by rw [hlen, htc]⟩
  rw [hdr hd, List.append_assoc]; rfl

set_option maxRecDepth 1000000 in
theorem C1_stream_is_encoded_frame_witness :
    (ticks [8, 64, 127] ((UniWS_show ⟨UniWS_new 6 sixPixels none WS2811_GRB, idlePipe⟩).getD
        ⟨UniWS_new 6 sixPixels none WS2811_GRB, idlePipe⟩)).pipe.state = State.S_DRAINING ∧
    2 * (24 * 6 + 40) < 2 ^ 32 ∧
    ∃ s0, UniWS_show ⟨UniWS_new 6 sixPixels none WS2811_GRB, idlePipe⟩ = some s0 ∧
      s0.pipe.DSR_BCR = (2 * (24 * 6 + 40)) % 2 ^ 32 ∧
      (2 * (24 * 6 + 40) < 2 ^ 32 →
        s0.pipe.DSR_BCR = 2 * (24 * 6 + 40) ∧ s0.pipe.DSR_BCR / 2 = 24 * 6 + 40) ∧
      transferCount 6 = 24 * 6 + 40 ∧
      ((ticks [8, 64, 127] s0).pipe.state = State.S_DRAINING →
        codes (ticks [8, 64, 127] s0).pipe.written =
            codes idlePipe.written ++ (encodeBytes sixPixels ++ List.replicate 40 0) ∧
          (encodeBytes sixPixels ++ List.replicate 40 0).length = 24 * 6 + 40 ∧
          (encodeBytes sixPixels ++ List.replicate 40 0).length = transferCount 6) :=
  ⟨rfl, by decide,
    C1_stream_is_encoded_frame 6 sixPixels none WS2811_GRB idlePipe [8, 64, 127]
      (by decide) (by decide) (by decide) (by intro b h; cases h) rfl⟩

theorem runningLoop_first (u : UniWS) (p : Pipeline) (budget avail : Nat)
    (hs : p.state = State.S_RUNNING) (hc : p.packedByteCount ≠ 0) (ha : 8 ≤ avail) :
    runningLoop u (budget + 1) p avail = runningLoop u budget (unpackByte u p) (avail - 8) := by
  simp only [runningLoop, if_pos (And.intro hs ha), if_pos hc]

/-- A producer call entered in `S_RUNNING` with a byte left and room for it starts by
unpacking that byte. -/
theorem unpackAvail_first_byte (u : UniWS) (p : Pipeline) (avail : Nat)
    (hs : p.state = State.S_RUNNING) (hc : p.packedByteCount ≠ 0) (ha : 8 ≤ avail)
    (hw : p.bitCursor < DMABUF_COUNT) :
    ∃ rest, (unpackAvail u p avail).written = (unpackByte u p).written ++ rest := by
  have hcur := Appended_cursor_lt _ _ _ (Appended_unpackByte u p hw)
  have hr := runningLoop_first u p (avail / 8 + 1) avail hs hc ha
  obtain ⟨n, h1, _⟩ := runningLoop_appended u (avail / 8 + 1) (unpackByte u p) (avail - 8) hcur
  rw [← hr] at h1
  obtain ⟨m, h3, _⟩ := resettingLoop_appended
    ((runningLoop u (avail / 8 + 1 + 1) p avail).2 + 2)
    (runningLoop u (avail / 8 + 1 + 1) p avail).1
    (runningLoop u (avail / 8 + 1 + 1) p avail).2 (Appended_cursor_lt _ _ _ h1)
  obtain ⟨vs, _, hv, _, _⟩ := Appended_trans _ _ _ _ _ hcur h1 h3
  exact ⟨_, by unfold unpackAvail; rw [drainCheck_written]; exact hv⟩

theorem slotsFrom_encodeByte (w b : Nat) :
    slotsFrom w (encodeByte b) =
      (List.range 8).map (fun k =>
        ((w + k) % DMABUF_COUNT, if b / 2 ^ (7 - k) % 2 = 1 then ONE_TICKS else ZERO_TICKS)) := by
  rfl

theorem encodeByte_getD (b k : Nat) (hk : k < 8) :
    (encodeByte b).getD k 0 = if b / 2 ^ (7 - k) % 2 = 1 then ONE_TICKS else ZERO_TICKS := by
  unfold encodeByte
  rw [List.getD_eq_getElem?_getD, List.getElem?_map, List.getElem?_range hk]
  rfl

/-- C2: when the producer is in `S_RUNNING` with at least one byte remaining and
avail >= 8, one iteration of its first loop reads the source byte b and stores exactly
8 duration codes in the slots cursor, cursor+1, ..., cursor+7 (mod 128); the k-th code
is `ONE_TICKS` = 20 if bit 7-k of b is 1 and `ZERO_TICKS` = 10 otherwise; no other ring
slot changes; the write cursor advances by 8 (mod 128) and `packedByteCount` drops by
one.  In particular, with the byte 0xA5 as the only byte left and avail = capacity
(the call `unpackBits(0, DMABUF_COUNT)`), the first 8 codes emitted are long, short,
long, short, short, long, short, long. -/
theorem C2_byte_encoding (u : UniWS) (p : Pipeline) (budget avail b : Nat)
    (hs : p.state = State.S_RUNNING) (hc : p.packedByteCount ≠ 0) (ha : 8 ≤ avail)
    (hw : p.bitCursor < DMABUF_COUNT) (hlen : p.DMABuf.length = DMABUF_COUNT)
    (hb : load u p.packedBits = b) :
    runningLoop u (budget + 1) p avail = runningLoop u budget (unpackByte u p) (avail - 8) ∧
    (unpackByte u p).written = p.written ++ (List.range 8).map (fun k =>
      ((p.bitCursor + k) % 128, if b / 2 ^ (7 - k) % 2 = 1 then 20 else 10)) ∧
    (∀ k, k < 8 → (unpackByte u p).DMABuf.getD ((p.bitCursor + k) % 128) 0 =
      if b / 2 ^ (7 - k) % 2 = 1 then 20 else 10) ∧
    (∀ i, (∀ k, k < 8 → i ≠ (p.bitCursor + k) % 128) →
      (unpackByte u p).DMABuf.getD i 0 = p.DMABuf.getD i 0) ∧
    (unpackByte u p).bitCursor = (p.bitCursor + 8) % 128 ∧
    (unpackByte u p).packedByteCount = p.packedByteCount - 1 ∧
    (unpackByte u p).packedBits = ⟨p.packedBits.buf, p.packedBits.off + 1⟩ ∧
    (unpackByte u p).state = State.S_RUNNING ∧
    (b = 0xA5 → p.packedByteCount = 1 →
      ((codes (unpackBits u p 0 DMABUF_COUNT).written).drop p.written.length).take 8 =
        [20, 10, 20, 10, 10, 20, 10, 20]) := by
  have hd : (unpackByte u p).DMABuf = (writeSlots p (encodeByte b)).DMABuf := by
    rw [unpackByte_eq, hb]
    exact writeSlots_DMABuf_congr _ _ _ rfl rfl
  refine ⟨runningLoop_first u p budget avail hs hc ha, ?_, ?_, ?_, ?_, ?_, ?_, ?_, ?_⟩
  · rw [(unpackByte_ring u p hw).1, hb, slotsFrom_encodeByte]
    rfl
  · intro k hk
    rw [hd]
    have h := writeSlots_DMABuf_at p (encodeByte b) k hw hlen
      (by rw [encodeByte_length]; decide) (by rw [encodeByte_length]; exact hk)
    rw [encodeByte_getD b k hk] at h
    exact h
  · intro i hi
    rw [hd]
    apply writeSlots_DMABuf_other p (encodeByte b) i hw
    intro j hj
    rw [encodeByte_length] at hj
    exact hi j hj
  · exact (unpackByte_ring u p hw).2
  · exact unpackByte_packedByteCount u p
  · exact unpackByte_packedBits u p
  · rw [unpackByte_state, hs]
  · intro hb5 _
    obtain ⟨rest, hr⟩ := unpackAvail_first_byte u p DMABUF_COUNT hs hc (by decide) hw
    have e : unpackBits u p 0 DMABUF_COUNT = unpackAvail u p DMABUF_COUNT := rfl
    rw [e, hr, (unpackByte_ring u p hw).1, hb, hb5]
    simp only [codes, List.map_append, List.append_assoc]
    rw [List.drop_left' (by simp), ← codes, slotsFrom_codes]
    rfl

theorem C2_byte_encoding_witness :
    runningLoop (UniWS_new 6 sixPixels none WS2811_GRB) (16 + 1)
        { idlePipe with state := State.S_RUNNING, packedByteCount := 1 } 128 =
      runningLoop (UniWS_new 6 sixPixels none WS2811_GRB) 16
        (unpackByte (UniWS_new 6 sixPixels none WS2811_GRB)
          { idlePipe with state := State.S_RUNNING, packedByteCount := 1 }) (128 - 8) ∧
    ((codes (unpackBits (UniWS_new 6 sixPixels none WS2811_GRB)
        { idlePipe with state := State.S_RUNNING, packedByteCount := 1 }
        0 DMABUF_COUNT).written).drop 0).take 8 = [20, 10, 20, 10, 10, 20, 10, 20] :=
  have h := C2_byte_encoding (UniWS_new 6 sixPixels none WS2811_GRB)
    { idlePipe with state := State.S_RUNNING, packedByteCount := 1 } 16 128 0xA5
    rfl (by decide) (by decide) (by decide) rfl rfl
  ⟨h.1, h.2.2.2.2.2.2.2.2 rfl rfl⟩

/-- C3: from the moment the state is `S_RESETTING` with `resetBitCount` = 40, for every
sequence of producer calls with arbitrary values of avail (the first may be the rest
of the call that entered the state): as long as the calls had at most 40 slots
available in total, the state is still `S_RESETTING` and exactly that many zero codes
were stored, in consecutive ring slots; once they had more than 40, the state is
`S_DRAINING` and exactly 40 zero codes were stored, in the consecutive slots
cursor, ..., cursor+39 (mod 128). So `S_DRAINING` is never entered after fewer
than 40 zero codes and a 41st is never written. -/
theorem C3_reset_hold (u : UniWS) (p : Pipeline) (as : List Nat)
    (hs : p.state = State.S_RESETTING) (hc : p.resetBitCount = RESET_BITS)
    (hw : p.bitCursor < DMABUF_COUNT) :
    (as.sum ≤ 40 →
      (unpackRun u p as).state = State.S_RESETTING ∧
      (unpackRun u p as).resetBitCount = 40 - as.sum ∧
      (unpackRun u p as).written =
        p.written ++ (List.range as.sum).map (fun k => ((p.bitCursor + k) % 128, 0))) ∧
    (40 < as.sum →
      (unpackRun u p as).state = State.S_DRAINING ∧
      (unpackRun u p as).written =
        p.written ++ (List.range 40).map (fun k => ((p.bitCursor + k) % 128, 0))) := by
  have hz : ∀ n, slotsFrom p.bitCursor (List.replicate n 0) =
      (List.range n).map (fun k => ((p.bitCursor + k) % 128, 0)) := by
    intro n
    unfold slotsFrom
    rw [List.length_replicate]
    apply List.map_congr_left
    intro k hk
    rw [List.mem_range] at hk
    simp [List.getD_eq_getElem?_getD, List.getElem?_replicate, hk, DMABUF_COUNT]
  obtain ⟨h1, h2⟩ := unpackRun_resetting u p as hs hw
  rw [hc] at h1 h2
  constructor
  · intro h
    obtain ⟨k1, k2, k3⟩ := h1 h
    exact ⟨k1, k2, by rw [k3, hz]⟩
  · intro h
    obtain ⟨k1, k2⟩ := h2 h
    exact ⟨k1, by rw [k2, hz]; rfl⟩

theorem C3_reset_hold_witness :
    (unpackRun (UniWS_new 6 sixPixels none WS2811_GRB)
        { idlePipe with state := State.S_RESETTING, resetBitCount := 40, bitCursor := 100 }
        [10, 0, 25, 7]).state = State.S_DRAINING ∧
    (unpackRun (UniWS_new 6 sixPixels none WS2811_GRB)
        { idlePipe with state := State.S_RESETTING, resetBitCount := 40, bitCursor := 100 }
        [10, 0, 25, 7]).written =
      [] ++ (List.range 40).map (fun k => ((100 + k) % 128, 0)) :=
  (C3_reset_hold (UniWS_new 6 sixPixels none WS2811_GRB)
    { idlePipe with state := State.S_RESETTING, resetBitCount := 40, bitCursor := 100 }
    [10, 0, 25, 7] rfl rfl (by decide)).2 (by decide)

/-- C4: for every channel order in WS2811_RGB, WS2811_RBG, WS2811_GRB, WS2811_GBR, every
index i < LEDCount of a front buffer of 3 * LEDCount bytes and every packed colour c
with 0 <= c < 2^24, `getPixel(i)` called after `setPixel(i, c)` returns exactly c. -/
theorem C4_round_trip (u : UniWS) (i : Nat) (c : Int) (hcfg : validOrder u.config)
    (hi : i < u.LEDCount) (hlen : u.frontPixels.length = 3 * u.LEDCount)
    (h32 : u.frontPixels.length < 2 ^ 32) (h0 : 0 ≤ c) (h24 : c < 2 ^ 24) :
    UniWS_getPixel (UniWS_setPixel u i c) i = c := by
  obtain ⟨⟨b1, b2, b3⟩, d12, d13, d23⟩ := validOrder_perm u.config hcfg
  lift c to ℕ using h0
  have hn : c < 2 ^ 24 := by exact_mod_cast h24
  have e1 := pixelOff_eq u i (u.config >>> 6 &&& 3) hi hlen h32
  have e2 := pixelOff_eq u i (u.config >>> 3 &&& 3) hi hlen h32
  have e3 := pixelOff_eq u i (u.config >>> 0 &&& 3) hi hlen h32
  obtain ⟨g1, g2, g3, _⟩ := set3_getD u.frontPixels
    (pixelOff i (u.config >>> 6 &&& 3)) (pixelOff i (u.config >>> 3 &&& 3))
    (pixelOff i (u.config >>> 0 &&& 3)) (toU8 ((c : Int) >>> (16 : Nat))) (toU8 ((c : Int) >>> (8 : Nat)))
    (toU8 ((c : Int) >>> (0 : Nat))) (by omega) (by omega) (by omega) (by omega) (by omega) (by omega)
  unfold UniWS_getPixel UniWS_setPixel
  simp only
  rw [g1, g2, g3, toU8_shift, toU8_shift, toU8_shift, pack_unpack c hn]

theorem C4_round_trip_witness :
    UniWS_getPixel (UniWS_setPixel (UniWS_new 6 sixPixels none WS2811_GBR) 4 0x123456) 4
      = 0x123456 :=
  C4_round_trip (UniWS_new 6 sixPixels none WS2811_GBR) 4 0x123456
    (Or.inr (Or.inr (Or.inr rfl))) (by decide) (by decide) (by decide) (by decide) (by decide)

/-- C5: for every index i < LEDCount and all bytes r, g, b, after
`setPixel(i, color(r, g, b))` the bytes at offsets 3i, 3i+1, 3i+2 of the front buffer
are (r, g, b) for WS2811_RGB, (r, b, g) for WS2811_RBG, (g, r, b) for WS2811_GRB and
(g, b, r) for WS2811_GBR; every other byte of the front buffer, its length and the
back buffer are unchanged. -/
theorem C5_channel_layout (u : UniWS) (i r g b : Nat) (hcfg : validOrder u.config)
    (hi : i < u.LEDCount) (hlen : u.frontPixels.length = 3 * u.LEDCount)
    (h32 : u.frontPixels.length < 2 ^ 32) (hr : r < 256) (hg : g < 256) (hb : b < 256) :
    (u.config = WS2811_RGB →
      (UniWS_setPixel u i (UniWS_color r g b)).frontPixels.getD (3 * i) 0 = r ∧
      (UniWS_setPixel u i (UniWS_color r g b)).frontPixels.getD (3 * i + 1) 0 = g ∧
      (UniWS_setPixel u i (UniWS_color r g b)).frontPixels.getD (3 * i + 2) 0 = b) ∧
    (u.config = WS2811_RBG →
      (UniWS_setPixel u i (UniWS_color r g b)).frontPixels.getD (3 * i) 0 = r ∧
      (UniWS_setPixel u i (UniWS_color r g b)).frontPixels.getD (3 * i + 1) 0 = b ∧
      (UniWS_setPixel u i (UniWS_color r g b)).frontPixels.getD (3 * i + 2) 0 = g) ∧
    (u.config = WS2811_GRB →
      (UniWS_setPixel u i (UniWS_color r g b)).frontPixels.getD (3 * i) 0 = g ∧
      (UniWS_setPixel u i (UniWS_color r g b)).frontPixels.getD (3 * i + 1) 0 = r ∧
      (UniWS_setPixel u i (UniWS_color r g b)).frontPixels.getD (3 * i + 2) 0 = b) ∧
    (u.config = WS2811_GBR →
      (UniWS_setPixel u i (UniWS_color r g b)).frontPixels.getD (3 * i) 0 = g ∧
      (UniWS_setPixel u i (UniWS_color r g b)).frontPixels.getD (3 * i + 1) 0 = b ∧
      (UniWS_setPixel u i (UniWS_color r g b)).frontPixels.getD (3 * i + 2) 0 = r) ∧
    (∀ j, j ≠ 3 * i → j ≠ 3 * i + 1 → j ≠ 3 * i + 2 →
      (UniWS_setPixel u i (UniWS_color r g b)).frontPixels.getD j 0 =
        u.frontPixels.getD j 0) ∧
    (UniWS_setPixel u i (UniWS_color r g b)).frontPixels.length = u.frontPixels.length ∧
    (UniWS_setPixel u i (UniWS_color r g b)).backPixels = u.backPixels := by
  obtain ⟨⟨b1, b2, b3⟩, d12, d13, d23⟩ := validOrder_perm u.config hcfg
  have e1 := pixelOff_eq u i (u.config >>> 6 &&& 3) hi hlen h32
  have e2 := pixelOff_eq u i (u.config >>> 3 &&& 3) hi hlen h32
  have e3 := pixelOff_eq u i (u.config >>> 0 &&& 3) hi hlen h32
  obtain ⟨g1, g2, g3, g4⟩ := set3_getD u.frontPixels
    (pixelOff i (u.config >>> 6 &&& 3)) (pixelOff i (u.config >>> 3 &&& 3))
    (pixelOff i (u.config >>> 0 &&& 3)) (toU8 (UniWS_color r g b >>> (16 : Nat)))
    (toU8 (UniWS_color r g b >>> (8 : Nat))) (toU8 (UniWS_color r g b >>> (0 : Nat)))
    (by omega) (by omega) (by omega) (by omega) (by omega) (by omega)
  obtain ⟨p1, p2, p3⟩ := unpack_pack r g b hr hg hb
  have c1 : toU8 (UniWS_color r g b >>> (16 : Nat)) = r := by
    unfold UniWS_color; rw [toU8_shift, p1]
  have c2 : toU8 (UniWS_color r g b >>> (8 : Nat)) = g := by
    unfold UniWS_color; rw [toU8_shift, p2]
  have c3 : toU8 (UniWS_color r g b >>> (0 : Nat)) = b := by
    unfold UniWS_color; rw [toU8_shift, p3]
  have hfront : (UniWS_setPixel u i (UniWS_color r g b)).frontPixels =
      ((u.frontPixels.set (pixelOff i (u.config >>> 6 &&& 3))
          (toU8 (UniWS_color r g b >>> (16 : Nat)))).set (pixelOff i (u.config >>> 3 &&& 3))
          (toU8 (UniWS_color r g b >>> (8 : Nat)))).set (pixelOff i (u.config >>> 0 &&& 3))
          (toU8 (UniWS_color r g b >>> (0 : Nat))) := rfl
  rw [← hfront] at g1 g2 g3 g4
  rw [c1, e1] at g1
  rw [c2, e2] at g2
  rw [c3, e3] at g3
  refine ⟨?_, ?_, ?_, ?_, ?_, ?_, rfl⟩
  · intro h
    rw [h] at g1 g2 g3
    exact ⟨g1, g2, g3⟩
  · intro h
    rw [h] at g1 g2 g3
    exact ⟨g1, g3, g2⟩
  · intro h
    rw [h] at g1 g2 g3
    exact ⟨g2, g1, g3⟩
  · intro h
    rw [h] at g1 g2 g3
    exact ⟨g2, g3, g1⟩
  · intro j j1 j2 j3
    apply g4 j <;> omega
  · rw [hfront]; simp

theorem C5_channel_layout_witness :
    (UniWS_setPixel (UniWS_new 6 sixPixels none WS2811_GBR) 4
        (UniWS_color 0x12 0x34 0x56)).frontPixels.getD (3 * 4) 0 = 0x34 ∧
    (UniWS_setPixel (UniWS_new 6 sixPixels none WS2811_GBR) 4
        (UniWS_color 0x12 0x34 0x56)).frontPixels.getD (3 * 4 + 1) 0 = 0x56 ∧
    (UniWS_setPixel (UniWS_new 6 sixPixels none WS2811_GBR) 4
        (UniWS_color 0x12 0x34 0x56)).frontPixels.getD (3 * 4 + 2) 0 = 0x12 :=
  (C5_channel_layout (UniWS_new 6 sixPixels none WS2811_GBR) 4 0x12 0x34 0x56
    (Or.inr (Or.inr (Or.inr rfl))) (by decide) (by decide) (by decide) (by decide) (by decide)
    (by decide)).2.2.2.1 rfl

/-- C6, as stated, fails: with one LED the pre-fill inside `show()` already unpacks the
three pixel bytes and the whole reset hold, so `show()` returns in `S_DRAINING`, the
cycle is still in flight (the state is not `S_IDLE`) and `busy()` is false. -/
theorem C6_busy_false_in_flight :
    (UniWS_show ⟨UniWS_new 1 [0xA5, 0x00, 0xFF] none WS2811_GRB, idlePipe⟩).map
      (fun s0 => (UniWS_busy s0, s0.pipe.state)) = some (false, State.S_DRAINING) := by
  rfl

/-- C6, amended: `busy()` is true exactly while the state is `S_RUNNING`. Called in the
idle state with N > 0 LEDs, `show()` returns, and `busy()` is true immediately
afterwards exactly when N >= 6 (for N <= 5 the pre-fill has already unpacked every pixel
byte). Once `busy()` is false no refill interrupt makes it true again, and it is
false after the completion handler. -/
theorem C6_busy_iff_running (N : Nat) (B : List Nat) (back : Option (List Nat))
    (config : Nat) (p : Pipeline) (hN : 0 < N) (h32 : 3 * N < 2 ^ 32)
    (hidle : p.state = State.S_IDLE) :
    (∀ s : Sys, UniWS_busy s = true ↔ s.pipe.state = State.S_RUNNING) ∧
    (∃ s0, UniWS_show ⟨UniWS_new N B back config, p⟩ = some s0 ∧
      (UniWS_busy s0 = true ↔ 6 ≤ N)) ∧
    (∀ (s : Sys) (r : Nat), UniWS_busy s = false → UniWS_busy (itimer_ISR r s) = false) ∧
    (∀ s : Sys, UniWS_busy (DMA_ISR s) = false) := by
  have hbusy : ∀ s : Sys, UniWS_busy s = true ↔ s.pipe.state = State.S_RUNNING := by
    intro s
    unfold UniWS_busy
    exact decide_eq_true_iff
  refine ⟨hbusy, ?_, ?_, ?_⟩
  · refine ⟨_, show_idle ⟨UniWS_new N B back config, p⟩ (Nat.pos_iff_ne_zero.mp hN) hidle, ?_⟩
    rw [hbusy, show_running_iff]
    have hbc : (UniWS_new N B back config).byteCount = 3 * N := Nat.mod_eq_of_lt h32
    show DMABUF_COUNT < 8 * ((UniWS_new N B back config).byteCount + 1) ↔ 6 ≤ N
    rw [hbc]
    simp only [DMABUF_COUNT]
    omega
  · intro s r h
    have hs : s.pipe.state ≠ State.S_RUNNING := by
      intro h2
      rw [(hbusy s).2 h2] at h
      exact absurd h (by decide)
    have h3 := unpackAvail_not_running_preserved s.obj s.pipe
      (availOf s.pipe.bitCursor r) hs
    cases hb : UniWS_busy (itimer_ISR r s) with
    | false => rfl
    | true => exact absurd ((hbusy _).1 hb) h3
  · intro s
    rfl

theorem C6_busy_iff_running_witness :
    ∃ s0, UniWS_show ⟨UniWS_new 6 sixPixels none WS2811_GRB, idlePipe⟩ = some s0 ∧
      (UniWS_busy s0 = true ↔ 6 ≤ 6) :=
  (C6_busy_iff_running 6 sixPixels none WS2811_GRB idlePipe (by decide) (by decide) rfl).2.1

/-- C7: in double buffer mode (back buffer present), `show()` called in the idle state
returns with the producer reading the back buffer, whose contents are those of the
front buffer at the call. Whatever `setPixel` and `clear` calls are interleaved with
the refill interrupts afterwards, the back buffer keeps these contents and the
pipeline (ring, log of written codes, counters, state) is the same as with the
refill interrupts alone; when the state reaches `S_DRAINING` the codes written in
the cycle are the encoding of the front buffer as it was when `show()` was called,
followed by the 40 zero codes. -/
theorem C7_double_buffer_isolation (N : Nat) (F b : List Nat) (config : Nat) (p : Pipeline)
    (evs : List Event) (hN : 0 < N) (h32 : 3 * N < 2 ^ 32) (hF : F.length = 3 * N)
    (hb : b.length = 3 * N) (hidle : p.state = State.S_IDLE)
    (_hvalid : ∀ e ∈ evs, validEvent (UniWS_new N F (some b) config) e) :
    ∃ s0, UniWS_show ⟨UniWS_new N F (some b) config, p⟩ = some s0 ∧
      s0.pipe.packedBits.buf = Buf.back ∧
      s0.obj.backPixels = some F ∧
      (run evs s0).pipe.packedBits.buf = Buf.back ∧
      (run evs s0).obj.backPixels = some F ∧
      (run evs s0).pipe = (ticks (tickPositions evs) s0).pipe ∧
      ((run evs s0).pipe.state = State.S_DRAINING →
        codes (run evs s0).pipe.written =
          codes p.written ++ (encodeBytes F ++ List.replicate 40 0)) := by
  have hbc : (UniWS_new N F (some b) config).byteCount = 3 * N := Nat.mod_eq_of_lt h32
  have hf : (UniWS_new N F (some b) config).frontPixels.length =
      (UniWS_new N F (some b) config).byteCount := by rw [hbc]; exact hF
  have hb2 : ∀ c, (UniWS_new N F (some b) config).backPixels = some c →
      c.length = (UniWS_new N F (some b) config).byteCount := by
    intro c h
    rw [hbc]
    cases h
    exact hb
  have hsrc0 : (showArm (showPrefill (showCopy ⟨UniWS_new N F (some b) config, p⟩))).pipe.packedBits.buf
      = Buf.back := by
    show (unpackAvail _ _ _).packedBits.buf = Buf.back
    rw [unpackAvail_buf]
    rfl
  have hback0 : (showArm (showPrefill (showCopy ⟨UniWS_new N F (some b) config, p⟩))).obj.backPixels
      = some F := by
    show some (memcpy b F ((3 * N) % 2 ^ 32)) = some F
    rw [Nat.mod_eq_of_lt h32, memcpy_full b F (3 * N) hF hb]
  obtain ⟨r1, r2⟩ := run_back_source evs _ _ rfl rfl hsrc0
  have hinv := CycleInv_ticks F (codes p.written) (sourceBuf (UniWS_new N F (some b) config))
    (tickPositions evs)
    (showArm (showPrefill (showCopy ⟨UniWS_new N F (some b) config, p⟩)))
    (showCopy_source ⟨UniWS_new N F (some b) config, p⟩ hf hb2)
    (CycleInv_show ⟨UniWS_new N F (some b) config, p⟩ hf hb2)
  refine ⟨_, show_idle ⟨UniWS_new N F (some b) config, p⟩ (Nat.pos_iff_ne_zero.mp hN) hidle,
    hsrc0, hback0, ?_, ?_, r1, ?_⟩
  · rw [r1]
    exact ticks_buf _ _ hsrc0
  · rw [r2, hback0]
  · intro hd
    rw [r1] at hd ⊢
    obtain ⟨_, _, _, hdr⟩ := hinv
    rw [hdr hd, List.append_assoc]
    rfl

theorem C7_double_buffer_isolation_witness :
    ∃ s0, UniWS_show ⟨UniWS_new 6 sixPixels (some (List.replicate 18 0)) WS2811_GRB, idlePipe⟩
        = some s0 ∧
      s0.pipe.packedBits.buf = Buf.back ∧
      s0.obj.backPixels = some sixPixels ∧
      (run [Event.setPixel 0 0xFFFFFF, Event.tick 8, Event.clear, Event.tick 64]
        s0).pipe.packedBits.buf = Buf.back ∧
      (run [Event.setPixel 0 0xFFFFFF, Event.tick 8, Event.clear, Event.tick 64]
        s0).obj.backPixels = some sixPixels ∧
      (run [Event.setPixel 0 0xFFFFFF, Event.tick 8, Event.clear, Event.tick 64] s0).pipe =
        (ticks (tickPositions
          [Event.setPixel 0 0xFFFFFF, Event.tick 8, Event.clear, Event.tick 64]) s0).pipe ∧
      ((run [Event.setPixel 0 0xFFFFFF, Event.tick 8, Event.clear, Event.tick 64]
          s0).pipe.state = State.S_DRAINING →
        codes (run [Event.setPixel 0 0xFFFFFF, Event.tick 8, Event.clear, Event.tick 64]
          s0).pipe.written =
          codes idlePipe.written ++ (encodeBytes sixPixels ++ List.replicate 40 0)) :=
  C7_double_buffer_isolation 6 sixPixels (List.replicate 18 0) WS2811_GRB idlePipe
    [Event.setPixel 0 0xFFFFFF, Event.tick 8, Event.clear, Event.tick 64]
    (by decide) (by decide) (by decide) (by decide) rfl
    (by
      intro e he
      simp only [List.mem_cons, List.mem_singleton, List.not_mem_nil, or_false] at he
      rcases he with h | h | h | h <;> rw [h] <;> simp [validEvent, UniWS_new])

/-- C8: once `busy()` is false the pixel buffers are no longer read in the current
cycle. A producer call entered with `busy()` false (state other than `S_RUNNING`)
gives the same result whatever the pixel buffers hold and leaves `packedBits` and
`packedByteCount` unchanged; a refill interrupt that moves the state out of
`S_RUNNING` leaves `packedByteCount` at zero; hence a `setPixel` performed after
`busy()` returned false (single buffer mode included) changes nothing in the
pipeline, in particular no code written to the ring, under any later run of refill
interrupts. -/
theorem C8_store_unread_after_busy (s : Sys) (hb : UniWS_busy s = false) :
    (∀ (u : UniWS) (r : Nat),
      unpackBits u s.pipe s.pipe.bitCursor r = (itimer_ISR r s).pipe ∧
      (itimer_ISR r s).pipe.packedBits = s.pipe.packedBits ∧
      (itimer_ISR r s).pipe.packedByteCount = s.pipe.packedByteCount ∧
      UniWS_busy (itimer_ISR r s) = false) ∧
    (∀ (t : Sys) (r : Nat), t.pipe.state = State.S_RUNNING →
      (itimer_ISR r t).pipe.state ≠ State.S_RUNNING →
      (itimer_ISR r t).pipe.packedByteCount = 0) ∧
    (∀ (index : Nat) (color : Int) (rs : List Nat),
      (ticks rs { s with obj := UniWS_setPixel s.obj index color }).pipe = (ticks rs s).pipe ∧
      (ticks rs { s with obj := UniWS_setPixel s.obj index color }).pipe.written =
        (ticks rs s).pipe.written) := by
  have hs : s.pipe.state ≠ State.S_RUNNING := by
    intro h
    have : UniWS_busy s = true := by unfold UniWS_busy; exact decide_eq_true h
    rw [this] at hb
    exact absurd hb (by decide)
  refine ⟨?_, ?_, ?_⟩
  · intro u r
    have hq := unpackAvail_not_running_preserved s.obj s.pipe (availOf s.pipe.bitCursor r) hs
    refine ⟨unpackAvail_mem_indep u s.obj s.pipe _ hs, ?_, ?_, ?_⟩
    · show (unpackAvail s.obj s.pipe _).packedBits = _
      rw [unpackAvail_not_running _ _ _ hs, drainCheck_packedBits]
      exact (resettingLoop_packed _ _ _).1
    · show (unpackAvail s.obj s.pipe _).packedByteCount = _
      rw [unpackAvail_not_running _ _ _ hs, drainCheck_packedByteCount]
      exact (resettingLoop_packed _ _ _).2
    · unfold UniWS_busy
      exact decide_eq_false hq
  · intro t r h1 h2
    exact unpackAvail_leaves_running t.obj t.pipe _ h1 h2
  · intro index color rs
    have h := ticks_mem_indep rs { s with obj := UniWS_setPixel s.obj index color } s rfl hs
    exact ⟨h, by rw [h]⟩

theorem C8_store_unread_after_busy_witness :
    UniWS_busy holdSys = false ∧
    (ticks [8, 64] { holdSys with obj := UniWS_setPixel holdSys.obj 0 0xFFFFFF }).pipe =
      (ticks [8, 64] holdSys).pipe :=
  ⟨rfl, ((C8_store_unread_after_busy holdSys rfl).2.2 0 0xFFFFFF [8, 64]).1⟩

theorem availOf_eq (w r : Nat) (hw : w < DMABUF_COUNT) (hr : r < DMABUF_COUNT) :
    availOf w r = (r + 128 - w) % 128 := by
  unfold availOf
  simp only [DMABUF_COUNT] at *
  split <;> omega

set_option maxRecDepth 1000000 in
/-- C9, as stated, fails: after `show()` for six pixels the write cursor is 0; a refill
interrupt that finds the read cursor at 8 stores the 8 codes of one byte in slots
0..7 and returns with the write cursor at 8, which is the read cursor and is not in
the range 0..7. -/
theorem C9_cursor_reaches_read_cursor :
    shownSys.pipe.bitCursor = 0 ∧ (itimer_ISR 8 shownSys).pipe.bitCursor = 8 ∧
      ¬ inCircRange shownSys.pipe.bitCursor 8 (itimer_ISR 8 shownSys).pipe.bitCursor := by
  refine ⟨rfl, rfl, ?_⟩
  have h0 : shownSys.pipe.bitCursor = 0 := rfl
  have h8 : (itimer_ISR 8 shownSys).pipe.bitCursor = 8 := rfl
  rw [h0, h8]
  unfold inCircRange
  decide

/-- C9, amended: a producer call never moves the write cursor past the read cursor,
but may move it onto the read cursor. For every refill interrupt entered with the
write cursor w < 128 and the read cursor r < 128, the call stores n codes with
n <= avail = (r - w) mod 128, in the consecutive slots w, w+1, ... (mod 128), and the
write cursor on return is (w + n) mod 128, at circular distance n <= avail from w.
The pre-fill inside `show()` (write cursor 0, avail = 128) stores n <= 128 codes
from slot 0 on and returns with the write cursor n mod 128. -/
theorem C9_cursor_within_avail (u : UniWS) (p : Pipeline) (r : Nat)
    (hw : p.bitCursor < DMABUF_COUNT) (hr : r < DMABUF_COUNT) :
    (∃ vs : List Nat, vs.length ≤ (r + 128 - p.bitCursor) % 128 ∧
      (unpackBits u p p.bitCursor r).written = p.written ++ slotsFrom p.bitCursor vs ∧
      (unpackBits u p p.bitCursor r).bitCursor = (p.bitCursor + vs.length) % 128 ∧
      ((unpackBits u p p.bitCursor r).bitCursor + 128 - p.bitCursor) % 128 = vs.length) ∧
    (p.bitCursor = 0 →
      ∃ vs : List Nat, vs.length ≤ 128 ∧
        (unpackBits u p 0 DMABUF_COUNT).written = p.written ++ slotsFrom 0 vs ∧
        (unpackBits u p 0 DMABUF_COUNT).bitCursor = vs.length % 128) := by
  constructor
  · obtain ⟨n, hn, vs, hl, hv, hc, _⟩ := unpackAvail_appended u p (availOf p.bitCursor r) hw
    rw [availOf_eq _ _ hw hr] at hn
    refine ⟨vs, by omega, hv, by rw [hl]; exact hc, ?_⟩
    show ((unpackAvail u p (availOf p.bitCursor r)).bitCursor + 128 - p.bitCursor) % 128 = _
    rw [hc, hl]
    simp only [DMABUF_COUNT] at *
    omega
  · intro h0
    obtain ⟨n, hn, vs, hl, hv, hc, _⟩ := unpackAvail_appended u p (availOf 0 DMABUF_COUNT) hw
    have ha : availOf 0 DMABUF_COUNT = 128 := rfl
    rw [ha] at hn
    rw [h0] at hv hc
    refine ⟨vs, by omega, hv, ?_⟩
    show (unpackAvail u p (availOf 0 DMABUF_COUNT)).bitCursor = _
    rw [hc, hl, Nat.zero_add]
    rfl

set_option maxRecDepth 1000000 in
theorem C9_cursor_within_avail_witness :
    ∃ vs : List Nat, vs.length ≤ (8 + 128 - shownSys.pipe.bitCursor) % 128 ∧
      (unpackBits shownSys.obj shownSys.pipe shownSys.pipe.bitCursor 8).written =
        shownSys.pipe.written ++ slotsFrom shownSys.pipe.bitCursor vs ∧
      (unpackBits shownSys.obj shownSys.pipe shownSys.pipe.bitCursor 8).bitCursor =
        (shownSys.pipe.bitCursor + vs.length) % 128 ∧
      ((unpackBits shownSys.obj shownSys.pipe shownSys.pipe.bitCursor 8).bitCursor + 128 -
        shownSys.pipe.bitCursor) % 128 = vs.length :=
  (C9_cursor_within_avail shownSys.obj shownSys.pipe 8
    (by rw [show shownSys.pipe.bitCursor = 0 from rfl]; decide) (by decide)).1

/-- C10: a refill interrupt only moves the state forward along `S_RUNNING`,
`S_RESETTING`, `S_DRAINING`; it leaves `S_IDLE` and `S_DRAINING` unchanged and writes
no ring slot in either. `show()` changes the system (and so sets `S_RUNNING`) only
when the state is `S_IDLE`, and then leaves a state other than `S_IDLE`. Among all
operations only the completion handler `DMA_ISR` and `begin()` set the state to
`S_IDLE`. -/
theorem C10_state_monotone (s : Sys) :
    (∀ r : Nat,
      (s.pipe.state = State.S_IDLE → (itimer_ISR r s).pipe = s.pipe) ∧
      (s.pipe.state = State.S_DRAINING →
        (itimer_ISR r s).pipe.state = State.S_DRAINING ∧
        (itimer_ISR r s).pipe.written = s.pipe.written ∧
        (itimer_ISR r s).pipe.DMABuf = s.pipe.DMABuf ∧
        (itimer_ISR r s).pipe.bitCursor = s.pipe.bitCursor) ∧
      (s.pipe.state = State.S_RESETTING →
        (itimer_ISR r s).pipe.state = State.S_RESETTING ∨
        (itimer_ISR r s).pipe.state = State.S_DRAINING) ∧
      (s.pipe.state = State.S_RUNNING →
        (itimer_ISR r s).pipe.state = State.S_RUNNING ∨
        (itimer_ISR r s).pipe.state = State.S_RESETTING ∨
        (itimer_ISR r s).pipe.state = State.S_DRAINING) ∧
      rank s.pipe.state ≤ rank (itimer_ISR r s).pipe.state) ∧
    (∀ t : Sys, UniWS_show s = some t →
      (s.pipe.state ≠ State.S_IDLE → t = s) ∧
      (t.pipe.state = State.S_RUNNING → s.pipe.state ≠ State.S_RUNNING →
        s.pipe.state = State.S_IDLE) ∧
      (s.pipe.state = State.S_IDLE → s.obj.LEDCount ≠ 0 → t.pipe.state ≠ State.S_IDLE)) ∧
    (∀ (op : Op) (t : Sys), step s op = some t → s.pipe.state ≠ State.S_IDLE →
      t.pipe.state = State.S_IDLE → op = Op.dmaDone ∨ op = Op.begin_) ∧
    (DMA_ISR s).pipe.state = State.S_IDLE := by
  have htick : ∀ r : Nat, (itimer_ISR r s).pipe =
      unpackAvail s.obj s.pipe (availOf s.pipe.bitCursor r) := fun _ => rfl
  have hshow : ∀ t : Sys, UniWS_show s = some t → s.pipe.state ≠ State.S_IDLE → t = s := by
    intro t ht hne
    unfold UniWS_show at ht
    by_cases h0 : s.obj.LEDCount = 0
    · rw [if_pos h0] at ht
      exact (Option.some.inj ht).symm
    · rw [if_neg h0] at ht
      by_cases h1 : s.pipe.state = State.S_RUNNING
      · rw [if_pos h1] at ht
        cases ht
      · rw [if_neg h1] at ht
        simp only [showCopy_pipe, ne_eq] at ht
        rw [if_pos hne] at ht
        cases ht
  refine ⟨?_, ?_, ?_, rfl⟩
  · intro r
    have hr := unpackAvail_rank s.obj s.pipe (availOf s.pipe.bitCursor r)
    rw [htick]
    refine ⟨fun h => unpackAvail_idle _ _ _ h, ?_, ?_, ?_, hr⟩
    · intro h
      rw [unpackAvail_draining _ _ _ h]
      exact ⟨by rw [drainCheck_state]; exact h, drainCheck_written _, drainCheck_DMABuf _,
        drainCheck_bitCursor _⟩
    · intro h
      rw [h] at hr
      cases hq : (unpackAvail s.obj s.pipe (availOf s.pipe.bitCursor r)).state with
      | S_IDLE => rw [hq] at hr; exact absurd hr (by decide)
      | S_RUNNING => rw [hq] at hr; exact absurd hr (by decide)
      | S_RESETTING => exact Or.inl rfl
      | S_DRAINING => exact Or.inr rfl
    · intro h
      rw [h] at hr
      cases hq : (unpackAvail s.obj s.pipe (availOf s.pipe.bitCursor r)).state with
      | S_IDLE => rw [hq] at hr; exact absurd hr (by decide)
      | S_RUNNING => exact Or.inl rfl
      | S_RESETTING => exact Or.inr (Or.inl rfl)
      | S_DRAINING => exact Or.inr (Or.inr rfl)
  · intro t ht
    refine ⟨hshow t ht, ?_, ?_⟩
    · intro h1 h2
      by_contra hne
      rw [hshow t ht hne] at h1
      exact h2 h1
    · intro hidle hN
      rw [show_idle s hN hidle] at ht
      cases ht
      rw [show_state]
      exact unpackAvail_not_idle _ _ _ (by simp)
  · intro op t ht hne hidle
    cases op with
    | tick sar =>
      cases ht
      exact absurd hidle (unpackAvail_not_idle _ _ _ hne)
    | dmaDone => exact Or.inl rfl
    | begin_ => exact Or.inr rfl
    | show_ =>
      rw [hshow t ht hne] at hidle
      exact absurd hidle hne
    | busy => cases ht; exact absurd hidle hne
    | clear => cases ht; exact absurd hidle hne
    | getPixel index => cases ht; exact absurd hidle hne
    | setPixel index color => cases ht; exact absurd hidle hne

/-! ## A producer call entered in `S_RUNNING`, in closed form -/

theorem slotsFrom_inj (w : Nat) (vs ws : List Nat) (h : slotsFrom w vs = slotsFrom w ws) :
    vs = ws := by
  rw [← slotsFrom_codes w vs, ← slotsFrom_codes w ws, h]

/-- With `c` source bytes left: if they fit with at least 8 slots to spare the call
unpacks them all and goes on with the reset hold; otherwise it unpacks `avail / 8`
bytes and stays in `S_RUNNING`. -/
theorem unpackAvail_running_spec (u : UniWS) (p : Pipeline) (avail : Nat)
    (hs : p.state = State.S_RUNNING) (hw : p.bitCursor < DMABUF_COUNT) :
    (8 * (p.packedByteCount + 1) ≤ avail →
      ∃ vs : List Nat, vs.length = 8 * p.packedByteCount ∧
        (unpackAvail u p avail).packedByteCount = 0 ∧
        (avail - 8 * p.packedByteCount ≤ RESET_BITS →
          (unpackAvail u p avail).state = State.S_RESETTING ∧
          (unpackAvail u p avail).resetBitCount =
            RESET_BITS - (avail - 8 * p.packedByteCount) ∧
          (unpackAvail u p avail).written = p.written ++ slotsFrom p.bitCursor
            (vs ++ List.replicate (avail - 8 * p.packedByteCount) 0)) ∧
        (RESET_BITS < avail - 8 * p.packedByteCount →
          (unpackAvail u p avail).state = State.S_DRAINING ∧
          (unpackAvail u p avail).written = p.written ++ slotsFrom p.bitCursor
            (vs ++ List.replicate RESET_BITS 0))) ∧
    (avail < 8 * (p.packedByteCount + 1) →
      (unpackAvail u p avail).state = State.S_RUNNING ∧
      (unpackAvail u p avail).packedByteCount = p.packedByteCount - avail / 8 ∧
      ∃ vs : List Nat, vs.length = 8 * (avail / 8) ∧
        (unpackAvail u p avail).written = p.written ++ slotsFrom p.bitCursor vs) := by
  obtain ⟨c1, c2⟩ := runningLoop_control u (avail / 8 + 2) p avail hs (le_refl _)
  obtain ⟨n, ⟨vs, hl, hv, hc, hd⟩, hn⟩ := runningLoop_appended u (avail / 8 + 2) p avail hw
  have hcur : (runningLoop u (avail / 8 + 2) p avail).1.bitCursor < DMABUF_COUNT := by
    rw [hc]; exact Nat.mod_lt _ (by decide)
  have hq : unpackAvail u p avail = drainCheck (resettingLoop
      ((runningLoop u (avail / 8 + 2) p avail).2 + 2) (runningLoop u (avail / 8 + 2) p avail).1
      (runningLoop u (avail / 8 + 2) p avail).2).1 := rfl
  constructor
  · intro h
    obtain ⟨j1, j2, j3, j4⟩ := c1 h
    obtain ⟨r1, r2⟩ := resettingLoop_spec
      ((runningLoop u (avail / 8 + 2) p avail).2 + 2) (runningLoop u (avail / 8 + 2) p avail).1
      (runningLoop u (avail / 8 + 2) p avail).2 j1 (le_refl _) hcur
    rw [j2, j4, hv, hc] at r1 r2
    rw [j4] at hq
    have hln : n = 8 * p.packedByteCount := by omega
    refine ⟨vs, by rw [hl, hln], ?_, ?_, ?_⟩
    · rw [hq, drainCheck_packedByteCount, (resettingLoop_packed _ _ _).2, j3]
    · intro ha
      obtain ⟨k1, k2, k3, _⟩ := r1 ha
      refine ⟨by rw [hq, drainCheck_state]; exact k1,
        by rw [hq, drainCheck_resetBitCount]; exact k2, ?_⟩
      rw [hq, drainCheck_written, k3, slotsFrom_append, hl, List.append_assoc]
    · intro ha
      obtain ⟨k1, k2⟩ := r2 ha
      refine ⟨by rw [hq, drainCheck_state]; exact k1, ?_⟩
      rw [hq, drainCheck_written, k2, slotsFrom_append, hl, List.append_assoc]
  · intro h
    obtain ⟨j1, j2, j3⟩ := c2 h
    have hstop := resettingLoop_stop
      ((runningLoop u (avail / 8 + 2) p avail).2 + 2) (runningLoop u (avail / 8 + 2) p avail).1
      (runningLoop u (avail / 8 + 2) p avail).2 (by rw [j1]; simp)
    rw [hstop] at hq
    refine ⟨by rw [hq, drainCheck_state]; exact j1,
      by rw [hq, drainCheck_packedByteCount]; exact j2, vs, ?_, ?_⟩
    · rw [hl]; omega
    · rw [hq, drainCheck_written]; exact hv

/-! ## The codes of a cycle are a prefix of the frame -/

theorem take_length_append (xs ys : List Nat) : (xs ++ ys).take xs.length = xs := by
  simp

theorem encodeBytes_take_initial (B : List Nat) (k : Nat) (T : List Nat) :
    (encodeBytes B ++ T).take (encodeBytes (B.take k)).length = encodeBytes (B.take k) := by
  have h : encodeBytes B = encodeBytes (B.take k) ++ encodeBytes (B.drop k) := by
    rw [← encodeBytes_append, List.take_append_drop]
  rw [h, List.append_assoc]
  exact take_length_append _ _

/-- Under the cycle invariant the codes written since the start of the cycle are the
first codes of the frame `encodeBytes B ++ 40 zeros`. -/
theorem CycleInv_initial (B base : List Nat) (src : Buf) (p : Pipeline) (X : List Nat)
    (h : CycleInv B base src p) (hX : codes p.written = base ++ X) :
    X = (encodeBytes B ++ List.replicate RESET_BITS 0).take X.length := by
  obtain ⟨h0, h1, h2, h3⟩ := h
  cases hs : p.state with
  | S_IDLE => exact absurd hs h0
  | S_RUNNING =>
    obtain ⟨_, _, e⟩ := h1 hs
    rw [hX] at e
    have e2 := List.append_cancel_left e
    rw [e2]
    exact (encodeBytes_take_initial B _ _).symm
  | S_RESETTING =>
    obtain ⟨hle, e⟩ := h2 hs
    rw [hX, List.append_assoc] at e
    have e2 := List.append_cancel_left e
    rw [e2]
    have hr : List.replicate RESET_BITS 0 =
        List.replicate (RESET_BITS - p.resetBitCount) 0 ++ List.replicate p.resetBitCount (0 : Nat) := by
      rw [← List.replicate_add]
      congr 1
      omega
    rw [hr, ← List.append_assoc]
    exact (take_length_append _ _).symm
  | S_DRAINING =>
    have e := h3 hs
    rw [hX, List.append_assoc] at e
    have e2 := List.append_cancel_left e
    rw [e2]
    simp

/-! ## The pre-fill of `show()` -/

theorem show_prefill_fields (s : Sys) :
    (showArm (showPrefill (showCopy s))).pipe.state =
        (unpackAvail (showCopy s).obj (prefillStart s) DMABUF_COUNT).state ∧
    (showArm (showPrefill (showCopy s))).pipe.written =
        (unpackAvail (showCopy s).obj (prefillStart s) DMABUF_COUNT).written ∧
    (showArm (showPrefill (showCopy s))).pipe.DMABuf =
        (unpackAvail (showCopy s).obj (prefillStart s) DMABUF_COUNT).DMABuf ∧
    (showArm (showPrefill (showCopy s))).pipe.bitCursor =
        (unpackAvail (showCopy s).obj (prefillStart s) DMABUF_COUNT).bitCursor ∧
    (showArm (showPrefill (showCopy s))).pipe.itimerOn = true := by
  have h : (showPrefill (showCopy s)).pipe =
      unpackAvail (showCopy s).obj (prefillStart s) DMABUF_COUNT := by
    unfold prefillStart
    show unpackBits (showCopy s).obj _ 0 DMABUF_COUNT = _
    rw [showCopy_pipe, showCopy_byteCount]
    rfl
  refine ⟨?_, ?_, ?_, ?_, rfl⟩
  · show (showPrefill (showCopy s)).pipe.state = _
    rw [h]
  · show (showPrefill (showCopy s)).pipe.written = _
    rw [h]
  · show (showPrefill (showCopy s)).pipe.DMABuf = _
    rw [h]
  · have hArm : ∀ x : Sys, (showArm x).pipe.bitCursor = x.pipe.bitCursor := fun _ => rfl
    rw [hArm, h]

theorem prefillStart_cursor (s : Sys) : (prefillStart s).bitCursor < DMABUF_COUNT := by
  show 0 < 128
  decide

theorem drainCheck_timer (p : Pipeline) (h : (drainCheck p).state = State.S_DRAINING) :
    (drainCheck p).itimerOn = false := by
  rw [drainCheck_state] at h
  unfold drainCheck
  rw [if_pos h]

/-- What the pre-fill stores, by LED count: the whole frame for N <= 3, a full ring
otherwise. -/
theorem prefill_written (s : Sys) (N : Nat) (hbc : s.obj.byteCount = 3 * N) :
    ∃ vs : List Nat, vs.length = min (24 * N + 40) 128 ∧
      (unpackAvail (showCopy s).obj (prefillStart s) DMABUF_COUNT).written =
        s.pipe.written ++ slotsFrom 0 vs ∧
      (N ≤ 3 →
        (unpackAvail (showCopy s).obj (prefillStart s) DMABUF_COUNT).state =
          State.S_DRAINING) := by
  obtain ⟨c1, c2⟩ := unpackAvail_running_spec (showCopy s).obj (prefillStart s) DMABUF_COUNT
    rfl (prefillStart_cursor s)
  have hcount : (prefillStart s).packedByteCount = 3 * N := hbc
  have hwr : (prefillStart s).written = s.pipe.written := rfl
  have hcu : (prefillStart s).bitCursor = 0 := rfl
  rw [hcount, hwr, hcu] at c1 c2
  simp only [DMABUF_COUNT, RESET_BITS] at c1 c2 ⊢
  by_cases h5 : N ≤ 5
  · obtain ⟨vs, hl, _, r1, r2⟩ := c1 (by omega)
    by_cases h3 : N ≤ 3
    · obtain ⟨k1, k2⟩ := r2 (by omega)
      refine ⟨vs ++ List.replicate 40 0, ?_, k2, fun _ => k1⟩
      rw [List.length_append, List.length_replicate, hl]
      omega
    · obtain ⟨_, _, k3⟩ := r1 (by omega)
      refine ⟨vs ++ List.replicate (128 - 8 * (3 * N)) 0, ?_, k3, fun h => absurd h h3⟩
      rw [List.length_append, List.length_replicate, hl]
      omega
  · obtain ⟨_, _, vs, hl, hv⟩ := c2 (by omega)
    refine ⟨vs, ?_, hv, fun h => by omega⟩
    rw [hl]
    omega

/-- C11: with LED count 0, `show()` is a no-op: it returns without waiting, whatever the
state, and leaves the whole system as it was; in particular the state (`S_IDLE`
stays `S_IDLE`), `packedBits`, `packedByteCount`, `bitCursor`, `resetBitCount` and
the ring are unchanged, and neither the DMA channel (`DSR_BCR`, enable), nor the
`FTM_CSC_DMA` trigger of the pulse timer, nor the interval timer is touched. -/
theorem C11_show_zero_leds (s : Sys) (h0 : s.obj.LEDCount = 0) :
    UniWS_show s = some s ∧
    ∀ t : Sys, UniWS_show s = some t →
      t.obj = s.obj ∧
      t.pipe.state = s.pipe.state ∧
      (s.pipe.state = State.S_IDLE → t.pipe.state = State.S_IDLE) ∧
      t.pipe.packedBits = s.pipe.packedBits ∧
      t.pipe.packedByteCount = s.pipe.packedByteCount ∧
      t.pipe.bitCursor = s.pipe.bitCursor ∧
      t.pipe.resetBitCount = s.pipe.resetBitCount ∧
      t.pipe.DMABuf = s.pipe.DMABuf ∧
      t.pipe.written = s.pipe.written ∧
      t.pipe.dmaEnabled = s.pipe.dmaEnabled ∧
      t.pipe.DSR_BCR = s.pipe.DSR_BCR ∧
      t.pipe.ftmDma = s.pipe.ftmDma ∧
      t.pipe.itimerOn = s.pipe.itimerOn := by
  have h : UniWS_show s = some s := by
    unfold UniWS_show
    rw [if_pos h0]
  refine ⟨h, ?_⟩
  intro t ht
  rw [h] at ht
  cases ht
  exact ⟨rfl, rfl, fun hi => hi, rfl, rfl, rfl, rfl, rfl, rfl, rfl, rfl, rfl, rfl⟩

theorem C11_show_zero_leds_witness :
    UniWS_show ⟨UniWS_new 0 [] none WS2811_GRB, idlePipe⟩ =
      some ⟨UniWS_new 0 [] none WS2811_GRB, idlePipe⟩ :=
  (C11_show_zero_leds ⟨UniWS_new 0 [] none WS2811_GRB, idlePipe⟩ rfl).1

theorem memset_getD (dst : List Nat) (n j : Nat) (hj : j < n) :
    (memset dst 0 n).getD j 0 = 0 := by
  unfold memset
  rw [List.getD_eq_getElem?_getD, List.getElem?_append_left (by simp [hj])]
  simp [List.getElem?_replicate, hj]

/-- C12: for every LED count N (N = 0 included), each of the four channel orders and
every prior content of a front buffer of 3N bytes, after `clear()` the call
`getPixel(i)` returns 0 for all i < N. -/
theorem C12_clear_then_get (u : UniWS) (i : Nat) (hcfg : validOrder u.config)
    (hi : i < u.LEDCount) (hbc : u.byteCount = (3 * u.LEDCount) % 2 ^ 32)
    (hlen : u.frontPixels.length = 3 * u.LEDCount) (h32 : u.frontPixels.length < 2 ^ 32) :
    UniWS_getPixel (UniWS_clear u) i = 0 := by
  obtain ⟨⟨b1, b2, b3⟩, _⟩ := validOrder_perm u.config hcfg
  have hb : u.byteCount = 3 * u.LEDCount := by
    rw [hbc]; exact Nat.mod_eq_of_lt (by omega)
  have e1 := pixelOff_eq u i (u.config >>> 6 &&& 3) hi hlen h32
  have e2 := pixelOff_eq u i (u.config >>> 3 &&& 3) hi hlen h32
  have e3 := pixelOff_eq u i (u.config >>> 0 &&& 3) hi hlen h32
  have g : ∀ k, k < 3 → (memset u.frontPixels 0 u.byteCount).getD (3 * i + k) 0 = 0 := by
    intro k hk
    exact memset_getD _ _ _ (by omega)
  unfold UniWS_getPixel UniWS_clear
  simp only
  rw [e1, e2, e3, g _ b1, g _ b2, g _ b3]
  rfl

theorem C12_clear_then_get_witness :
    UniWS_getPixel (UniWS_clear (UniWS_new 6 sixPixels none WS2811_GBR)) 5 = 0 :=
  C12_clear_then_get (UniWS_new 6 sixPixels none WS2811_GBR) 5
    (Or.inr (Or.inr (Or.inr rfl))) (by decide) rfl (by decide) (by decide)

/-- C13, as stated, fails: with `BIT_TICKS` = 30 + 10 the high time of a 1 bit,
`ONE_TICKS` = 20, is not greater than its low time `BIT_TICKS - ONE_TICKS` = 20. -/
theorem C13_one_bit_not_long_high :
    ¬ (ONE_TICKS > BIT_TICKS - ONE_TICKS) ∧ BIT_TICKS - ONE_TICKS = 20 ∧ ONE_TICKS = 20 := by
  decide

/-- C13, amended: `begin()` programs a slot of `BIT_TICKS` = 40 timer ticks and every
code the producer stores for a data bit is `ONE_TICKS` or `ZERO_TICKS`. A 1 bit is
high for `ONE_TICKS` = 20 ticks and low for the same 20 ticks (equal, not longer);
a 0 bit is high for `ZERO_TICKS` = 10 ticks, strictly less than its low time of 30;
`ZERO_TICKS < ONE_TICKS`, and both high times are strictly less than the slot. -/
theorem C13_pulse_shape :
    (∀ s : Sys, (UniWS_begin s).pipe.FTM1_MOD + 1 = BIT_TICKS) ∧
    (∀ b c : Nat, c ∈ maskCodes b 9 0x80 → c = ONE_TICKS ∨ c = ZERO_TICKS) ∧
    ONE_TICKS = BIT_TICKS - ONE_TICKS ∧
    ZERO_TICKS < BIT_TICKS - ZERO_TICKS ∧
    ZERO_TICKS < ONE_TICKS ∧
    ONE_TICKS < BIT_TICKS ∧
    ZERO_TICKS < BIT_TICKS := by
  refine ⟨fun _ => rfl, ?_, by decide, by decide, by decide, by decide, by decide⟩
  intro b c hc
  rw [maskCodes_eq] at hc
  unfold encodeByte at hc
  rw [List.mem_map] at hc
  obtain ⟨k, _, hk⟩ := hc
  rw [← hk]
  split
  · exact Or.inl rfl
  · exact Or.inr rfl

theorem showCopy_config (u : UniWS) (c : Nat) (p : Pipeline) :
    showCopy ⟨{ u with config := c }, p⟩ =
      { obj := { (showCopy ⟨u, p⟩).obj with config := c }, pipe := (showCopy ⟨u, p⟩).pipe } := by
  unfold showCopy
  cases h : u.backPixels <;> simp [h]

theorem show_zero (s : Sys) (h0 : s.obj.LEDCount = 0) : UniWS_show s = some s := by
  unfold UniWS_show
  rw [if_pos h0]

theorem show_spin (s : Sys) (h0 : s.obj.LEDCount ≠ 0) (h1 : s.pipe.state ≠ State.S_IDLE) :
    UniWS_show s = none := by
  unfold UniWS_show
  rw [if_neg h0]
  by_cases h2 : s.pipe.state = State.S_RUNNING
  · rw [if_pos h2]
  · rw [if_neg h2]
    simp only [showCopy_pipe, ne_eq]
    rw [if_pos h1]

theorem showStart_config (u : UniWS) (c : Nat) (q : Pipeline) :
    (showArm (showPrefill ⟨{ u with config := c }, q⟩)).pipe =
      (showArm (showPrefill ⟨u, q⟩)).pipe := by
  have h : ∀ p1 : Pipeline, unpackBits { u with config := c } p1 0 DMABUF_COUNT =
      unpackBits u p1 0 DMABUF_COUNT := fun p1 => unpackAvail_congr _ _ _ _ rfl
  simp only [showArm, showPrefill, h]

/-- The field `config` is not read by `show()`. -/
theorem show_config_indep (u : UniWS) (c : Nat) (p : Pipeline) :
    (UniWS_show ⟨{ u with config := c }, p⟩).map Sys.pipe =
      (UniWS_show ⟨u, p⟩).map Sys.pipe := by
  by_cases h0 : u.LEDCount = 0
  · rw [show_zero ⟨{ u with config := c }, p⟩ h0, show_zero ⟨u, p⟩ h0]
    rfl
  · by_cases h2 : p.state = State.S_IDLE
    · rw [show_idle ⟨{ u with config := c }, p⟩ h0 h2, show_idle ⟨u, p⟩ h0 h2,
        showCopy_config]
      simp only [Option.map_some']
      rw [showStart_config]
    · rw [show_spin ⟨{ u with config := c }, p⟩ h0 h2, show_spin ⟨u, p⟩ h0 h2]

theorem slow_flag_indices (o : Nat) (ho : validOrder o) :
    ((o ||| WS2811_400kHz) % 256) >>> 6 &&& 3 = (o % 256) >>> 6 &&& 3 ∧
    ((o ||| WS2811_400kHz) % 256) >>> 3 &&& 3 = (o % 256) >>> 3 &&& 3 ∧
    ((o ||| WS2811_400kHz) % 256) >>> 0 &&& 3 = (o % 256) >>> 0 &&& 3 := by
  rcases ho with h | h | h | h <;> rw [h] <;> decide

set_option maxRecDepth 1000000 in
/-- C14, as stated, fails: a driver constructed with `WS2811_GRB | WS2811_400kHz` is
accepted and behaves like the one constructed with `WS2811_GRB`: `setPixel` stores
the same bytes, `getPixel` returns the same colour and `show()` leaves the same
pipeline (ring contents, codes written, transfer count, timer interval). -/
theorem C14_slow_variant_not_rejected :
    (UniWS_setPixel (UniWS_new 6 sixPixels none (WS2811_GRB ||| WS2811_400kHz)) 4
        0x123456).frontPixels =
      (UniWS_setPixel (UniWS_new 6 sixPixels none WS2811_GRB) 4 0x123456).frontPixels ∧
    UniWS_getPixel (UniWS_new 6 sixPixels none (WS2811_GRB ||| WS2811_400kHz)) 4 =
      UniWS_getPixel (UniWS_new 6 sixPixels none WS2811_GRB) 4 ∧
    (UniWS_show ⟨UniWS_new 6 sixPixels none (WS2811_GRB ||| WS2811_400kHz), idlePipe⟩).map
        Sys.pipe =
      (UniWS_show ⟨UniWS_new 6 sixPixels none WS2811_GRB, idlePipe⟩).map Sys.pipe ∧
    (UniWS_show ⟨UniWS_new 6 sixPixels none (WS2811_GRB ||| WS2811_400kHz), idlePipe⟩).isSome
      = true :=
  ⟨rfl, rfl,
    show_config_indep (UniWS_new 6 sixPixels none WS2811_GRB)
      ((WS2811_GRB ||| WS2811_400kHz) % 256) idlePipe,
    rfl⟩

/-- C14, amended: selecting the slow variant is not rejected and changes nothing. For
each of the four channel orders, a driver constructed with `WS2811_400kHz` (04)
OR-ed into the channel order behaves like the one constructed with the channel
order alone: `setPixel` stores the same bytes at the same places, `getPixel`
returns the same colour, and `begin()` and `show()` leave the same pipeline (same
duration codes, same transfer count, same timer period and interval). -/
theorem C14_slow_flag_ignored (o N : Nat) (F : List Nat) (back : Option (List Nat))
    (p : Pipeline) (i : Nat) (c : Int) (ho : validOrder o) :
    (UniWS_setPixel (UniWS_new N F back (o ||| WS2811_400kHz)) i c).frontPixels =
      (UniWS_setPixel (UniWS_new N F back o) i c).frontPixels ∧
    UniWS_getPixel (UniWS_new N F back (o ||| WS2811_400kHz)) i =
      UniWS_getPixel (UniWS_new N F back o) i ∧
    (UniWS_begin ⟨UniWS_new N F back (o ||| WS2811_400kHz), p⟩).pipe =
      (UniWS_begin ⟨UniWS_new N F back o, p⟩).pipe ∧
    (UniWS_show ⟨UniWS_new N F back (o ||| WS2811_400kHz), p⟩).map Sys.pipe =
      (UniWS_show ⟨UniWS_new N F back o, p⟩).map Sys.pipe := by
  obtain ⟨e1, e2, e3⟩ := slow_flag_indices o ho
  have hnew : UniWS_new N F back (o ||| WS2811_400kHz) =
      { UniWS_new N F back o with config := (o ||| WS2811_400kHz) % 256 } := rfl
  refine ⟨?_, ?_, rfl, ?_⟩
  · show ((F.set _ _).set _ _).set _ _ = ((F.set _ _).set _ _).set _ _
    show ((F.set (pixelOff i (((o ||| WS2811_400kHz) % 256) >>> 6 &&& 3)) _).set
      (pixelOff i (((o ||| WS2811_400kHz) % 256) >>> 3 &&& 3)) _).set
      (pixelOff i (((o ||| WS2811_400kHz) % 256) >>> 0 &&& 3)) _ = _
    rw [e1, e2, e3]
    rfl
  · unfold UniWS_getPixel
    show ((F.getD (pixelOff i (((o ||| WS2811_400kHz) % 256) >>> 6 &&& 3)) 0 <<< 16 |||
      F.getD (pixelOff i (((o ||| WS2811_400kHz) % 256) >>> 3 &&& 3)) 0 <<< 8 |||
      F.getD (pixelOff i (((o ||| WS2811_400kHz) % 256) >>> 0 &&& 3)) 0 <<< 0 : Nat) : Int) = _
    rw [e1, e2, e3]
    rfl
  · rw [hnew]
    exact show_config_indep _ _ _

theorem C14_slow_flag_ignored_witness :
    UniWS_getPixel (UniWS_new 6 sixPixels none (WS2811_RGB ||| WS2811_400kHz)) 2 =
      UniWS_getPixel (UniWS_new 6 sixPixels none WS2811_RGB) 2 :=
  (C14_slow_flag_ignored WS2811_RGB 6 sixPixels none idlePipe 2 0 (Or.inl rfl)).2.1

set_option maxRecDepth 1000000 in
/-- C15, as stated, fails: after `show()` for six pixels and a refill interrupt with read
cursor 8 one source byte is left; the next interrupt finds the read cursor at 16,
so avail = 8: it unpacks the last byte (`packedByteCount` goes from 1 to 0) and
returns with the state still `S_RUNNING`. -/
theorem C15_last_byte_stays_running :
    (ticks [8] shownSys).pipe.packedByteCount = 1 ∧
    (ticks [8] shownSys).pipe.state = State.S_RUNNING ∧
    (ticks [8] shownSys).pipe.bitCursor = 8 ∧
    (itimer_ISR 16 (ticks [8] shownSys)).pipe.packedByteCount = 0 ∧
    (itimer_ISR 16 (ticks [8] shownSys)).pipe.state = State.S_RUNNING :=
  ⟨rfl, rfl, rfl, rfl, rfl⟩

/-- C15, amended: a producer call that unpacks the last source bytes (`packedByteCount`
goes from c >= 1 to 0, so avail >= 8c) leaves `S_RUNNING` exactly when at least 8
slots are still available after the last byte. Then the state on return is
`S_RESETTING` with `resetBitCount` = 40 less the zero codes written in that call, or
`S_DRAINING` after all 40. With fewer than 8 slots left the call returns in
`S_RUNNING` with `packedByteCount` = 0, and the next call with avail >= 8 leaves
`S_RUNNING`. -/
theorem C15_last_byte_transition (u : UniWS) (p : Pipeline) (avail : Nat)
    (hs : p.state = State.S_RUNNING) (hw : p.bitCursor < DMABUF_COUNT)
    (_hc : 1 ≤ p.packedByteCount) (ha : 8 * p.packedByteCount ≤ avail) :
    (unpackAvail u p avail).packedByteCount = 0 ∧
    (8 * (p.packedByteCount + 1) ≤ avail → avail - 8 * p.packedByteCount ≤ 40 →
      (unpackAvail u p avail).state = State.S_RESETTING ∧
      (unpackAvail u p avail).resetBitCount = 40 - (avail - 8 * p.packedByteCount) ∧
      (unpackAvail u p avail).written.length =
        p.written.length + 8 * p.packedByteCount + (avail - 8 * p.packedByteCount)) ∧
    (8 * (p.packedByteCount + 1) ≤ avail → 40 < avail - 8 * p.packedByteCount →
      (unpackAvail u p avail).state = State.S_DRAINING ∧
      (unpackAvail u p avail).written.length = p.written.length + 8 * p.packedByteCount + 40) ∧
    (avail < 8 * (p.packedByteCount + 1) →
      (unpackAvail u p avail).state = State.S_RUNNING ∧
      (unpackAvail u p avail).written.length = p.written.length + 8 * p.packedByteCount ∧
      ∀ a2 : Nat, 8 ≤ a2 →
        (unpackAvail u (unpackAvail u p avail) a2).state ≠ State.S_RUNNING) := by
  obtain ⟨c1, c2⟩ := unpackAvail_running_spec u p avail hs hw
  simp only [RESET_BITS] at c1
  refine ⟨?_, ?_, ?_, ?_⟩
  · by_cases h : 8 * (p.packedByteCount + 1) ≤ avail
    · obtain ⟨_, _, k, _⟩ := c1 h
      exact k
    · obtain ⟨_, k, _⟩ := c2 (by omega)
      rw [k]
      omega
  · intro h h40
    obtain ⟨vs, hl, _, r1, _⟩ := c1 h
    obtain ⟨k1, k2, k3⟩ := r1 h40
    refine ⟨k1, k2, ?_⟩
    rw [k3, List.length_append, slotsFrom_length, List.length_append, List.length_replicate, hl]
    omega
  · intro h h40
    obtain ⟨vs, hl, _, _, r2⟩ := c1 h
    obtain ⟨k1, k2⟩ := r2 h40
    refine ⟨k1, ?_⟩
    rw [k2, List.length_append, slotsFrom_length, List.length_append, List.length_replicate, hl]
    omega
  · intro h
    obtain ⟨k1, k2, vs, hl, hv⟩ := c2 h
    refine ⟨k1, ?_, ?_⟩
    · rw [hv, List.length_append, slotsFrom_length, hl]
      omega
    · intro a2 h2
      apply (unpackAvail_running_state u (unpackAvail u p avail) a2 k1).1
      rw [k2]
      omega

theorem C15_last_byte_transition_witness :
    (unpackAvail holdSys.obj
        { holdSys.pipe with state := State.S_RUNNING, packedByteCount := 1 } 20).state =
      State.S_RESETTING ∧
    (unpackAvail holdSys.obj
        { holdSys.pipe with state := State.S_RUNNING, packedByteCount := 1 } 20).resetBitCount =
      40 - (20 - 8 * 1) :=
  have h := (C15_last_byte_transition holdSys.obj
    { holdSys.pipe with state := State.S_RUNNING, packedByteCount := 1 } 20
    rfl (by decide) (by decide) (by decide)).2.1 (by decide) (by decide)
  ⟨h.1, h.2.1⟩

set_option maxRecDepth 1000000 in
/-- C16 on the code: a refill interrupt that leaves the state `S_DRAINING` has ended the
interval timer. `show()` does not: it starts the timer after its pre-fill, so for
1 <= N <= 3 LEDs, where the pre-fill itself reaches `S_DRAINING`, it returns in
`S_DRAINING` with the timer armed; evaluated here for one LED. -/
theorem C16_show_arms_timer_in_draining :
    (∀ (s : Sys) (r : Nat), (itimer_ISR r s).pipe.state = State.S_DRAINING →
      (itimer_ISR r s).pipe.itimerOn = false) ∧
    (∀ (N : Nat) (B : List Nat) (back : Option (List Nat)) (config : Nat) (p : Pipeline),
      0 < N → N ≤ 3 → p.state = State.S_IDLE →
      ∃ s0, UniWS_show ⟨UniWS_new N B back config, p⟩ = some s0 ∧
        s0.pipe.state = State.S_DRAINING ∧ s0.pipe.itimerOn = true) ∧
    (UniWS_show ⟨UniWS_new 1 [0xA5, 0x00, 0xFF] none WS2811_GRB, idlePipe⟩).map
      (fun s0 => (s0.pipe.state, s0.pipe.itimerOn)) = some (State.S_DRAINING, true) := by
  refine ⟨?_, ?_, rfl⟩
  · intro s r h
    exact drainCheck_timer _ h
  · intro N B back config p hN h3 hidle
    obtain ⟨f1, _, _, _, f5⟩ := show_prefill_fields ⟨UniWS_new N B back config, p⟩
    obtain ⟨vs, _, _, hd⟩ := prefill_written ⟨UniWS_new N B back config, p⟩ N
      (Nat.mod_eq_of_lt (by omega))
    exact ⟨_, show_idle _ (Nat.pos_iff_ne_zero.mp hN) hidle, by rw [f1]; exact hd h3, f5⟩

/-- C17, as stated, fails: for N = 1431655766 LEDs the 32-bit `byteCount` = 3N wraps to
2, so the pre-fill of `show()` unpacks two bytes and the 40 reset codes: it stores
56 codes, not min(24N + 40, 128) = 128. -/
theorem C17_byte_count_wraps :
    0 < 1431655766 ∧
    (darkStrand 1431655766).obj.LEDCount = 1431655766 ∧
    (darkStrand 1431655766).obj.frontPixels.length = 3 * 1431655766 ∧
    (darkStrand 1431655766).obj.byteCount = 2 ∧
    min (24 * 1431655766 + 40) 128 = 128 ∧
    ∃ s0, UniWS_show (darkStrand 1431655766) = some s0 ∧
      s0.pipe.written.length = 56 ∧ s0.pipe.state = State.S_DRAINING := by
  obtain ⟨f1, f2, _⟩ := show_prefill_fields (darkStrand 1431655766)
  obtain ⟨c1, _⟩ := unpackAvail_running_spec (showCopy (darkStrand 1431655766)).obj
    (prefillStart (darkStrand 1431655766)) DMABUF_COUNT rfl
    (prefillStart_cursor (darkStrand 1431655766))
  have hcount : (prefillStart (darkStrand 1431655766)).packedByteCount = 2 := rfl
  have hwr : (prefillStart (darkStrand 1431655766)).written = [] := rfl
  rw [hcount, hwr] at c1
  obtain ⟨vs, hl, _, _, r2⟩ := c1 (by decide)
  obtain ⟨k1, k2⟩ := r2 (by decide)
  refine ⟨by decide, rfl, List.length_replicate _ _, rfl, by decide, _,
    show_idle (darkStrand 1431655766) (by decide) rfl, ?_, by rw [f1]; exact k1⟩
  rw [f2, k2, List.nil_append, slotsFrom_length, List.length_append, List.length_replicate, hl]
  rfl

/-- C17, amended: for every LED count N > 0 with 3N < 2^32 (the 32-bit `byteCount` does
not wrap), when `show()` starts a cycle in `S_IDLE` its inline producer call (write
cursor 0, avail = 128) stores exactly min(24N + 40, 128) codes, in the slots
0, 1, 2, ...; they are the first min(24N + 40, 128) codes of the frame (the encoding
of the pixel bytes followed by 40 zero codes) and the ring holds them on return. So
the ring is either full or holds the entire frame with its reset hold. -/
theorem C17_prefill_tops_off (N : Nat) (B : List Nat) (back : Option (List Nat))
    (config : Nat) (p : Pipeline) (hN : 0 < N) (h32 : 3 * N < 2 ^ 32)
    (hB : B.length = 3 * N) (hback : ∀ b, back = some b → b.length = 3 * N)
    (hidle : p.state = State.S_IDLE) (hring : p.DMABuf.length = DMABUF_COUNT) :
    ∃ s0, UniWS_show ⟨UniWS_new N B back config, p⟩ = some s0 ∧
      ∃ vs : List Nat, vs.length = min (24 * N + 40) 128 ∧
        s0.pipe.written = p.written ++ (List.range vs.length).map (fun k => (k, vs.getD k 0)) ∧
        vs = (encodeBytes B ++ List.replicate 40 0).take (min (24 * N + 40) 128) ∧
        (∀ k, k < vs.length → s0.pipe.DMABuf.getD k 0 = vs.getD k 0) ∧
        s0.pipe.bitCursor = vs.length % 128 := by
  have hbc : (UniWS_new N B back config).byteCount = 3 * N := Nat.mod_eq_of_lt (by omega)
  have hf : (UniWS_new N B back config).frontPixels.length =
      (UniWS_new N B back config).byteCount := by rw [hbc]; exact hB
  have hb : ∀ b, (UniWS_new N B back config).backPixels = some b →
      b.length = (UniWS_new N B back config).byteCount := by
    intro b h; rw [hbc]; exact hback b h
  obtain ⟨_, f2, f3, f4, _⟩ := show_prefill_fields ⟨UniWS_new N B back config, p⟩
  obtain ⟨vs, hl, hv, _⟩ := prefill_written ⟨UniWS_new N B back config, p⟩ N hbc
  obtain ⟨n, _, ws, hwl, hwv, hwc, hwd⟩ := unpackAvail_appended
    (showCopy ⟨UniWS_new N B back config, p⟩).obj
    (prefillStart ⟨UniWS_new N B back config, p⟩) DMABUF_COUNT (prefillStart_cursor _)
  have hws : ws = vs := by
    rw [hv] at hwv
    exact (slotsFrom_inj 0 _ _ (List.append_cancel_left hwv)).symm
  rw [hws] at hwl hwd
  have hinv := CycleInv_show ⟨UniWS_new N B back config, p⟩ hf hb
  have hcodes : codes (showArm (showPrefill (showCopy
      ⟨UniWS_new N B back config, p⟩))).pipe.written = codes p.written ++ vs := by
    rw [f2, hv]
    show codes (p.written ++ slotsFrom 0 vs) = _
    unfold codes
    rw [List.map_append]
    exact congrArg _ (slotsFrom_codes 0 vs)
  have hpre := CycleInv_initial _ _ _ _ vs hinv hcodes
  have hslots : slotsFrom 0 vs = (List.range vs.length).map (fun k => (k, vs.getD k 0)) := by
    unfold slotsFrom
    apply List.map_congr_left
    intro k hk
    rw [List.mem_range] at hk
    have hk2 : k < 128 := by rw [hl] at hk; omega
    simp only [DMABUF_COUNT, Nat.zero_add, Nat.mod_eq_of_lt hk2]
  refine ⟨_, show_idle _ (Nat.pos_iff_ne_zero.mp hN) hidle, vs, hl, ?_, ?_, ?_, ?_⟩
  · rw [f2, hv, hslots]
  · rw [hl] at hpre
    exact hpre
  · intro k hk
    rw [f3, hwd]
    have h := writeSlots_DMABuf_at (prefillStart ⟨UniWS_new N B back config, p⟩) vs k
      (prefillStart_cursor _) hring (by rw [hl]; simp only [DMABUF_COUNT]; omega) hk
    have hk2 : k < 128 := by rw [hl] at hk; omega
    have e : ((prefillStart ⟨UniWS_new N B back config, p⟩).bitCursor + k) % DMABUF_COUNT = k := by
      show (0 + k) % 128 = k
      omega
    rw [e] at h
    exact h
  · rw [f4, hwc, hwl]
    show (0 + n) % 128 = n % 128
    rw [Nat.zero_add]

set_option maxRecDepth 1000000 in
theorem C17_prefill_tops_off_witness :
    ∃ s0, UniWS_show ⟨UniWS_new 6 sixPixels none WS2811_GRB, idlePipe⟩ = some s0 ∧
      ∃ vs : List Nat, vs.length = min (24 * 6 + 40) 128 ∧
        s0.pipe.written =
          idlePipe.written ++ (List.range vs.length).map (fun k => (k, vs.getD k 0)) ∧
        vs = (encodeBytes sixPixels ++ List.replicate 40 0).take (min (24 * 6 + 40) 128) ∧
        (∀ k, k < vs.length → s0.pipe.DMABuf.getD k 0 = vs.getD k 0) ∧
        s0.pipe.bitCursor = vs.length % 128 :=
  C17_prefill_tops_off 6 sixPixels none WS2811_GRB idlePipe (by decide) (by decide)
    (by decide) (by intro b h; cases h) rfl rfl

/-- C18: for every refill interrupt entered with write cursor w < 128 and read cursor
r < 128, avail is (r - w) mod 128; the producer stores at most avail codes, exactly
in the consecutive slots w, w+1, ... (mod 128); every ring index used is < 128; the
write cursor on return is (w + number of codes stored) mod 128 and again < 128.
Hence every slot at circular distance >= avail from w, i.e. in the circular range
from r up to w - 1 (not yet drained by the consumer), is neither written nor
changed. -/
theorem C18_writes_within_free_region (u : UniWS) (p : Pipeline) (r : Nat)
    (hw : p.bitCursor < DMABUF_COUNT) (hr : r < DMABUF_COUNT) :
    availOf p.bitCursor r = (r + 128 - p.bitCursor) % 128 ∧
    (itimer_ISR r ⟨u, p⟩).pipe = unpackBits u p p.bitCursor r ∧
    ∃ vs : List Nat, vs.length ≤ availOf p.bitCursor r ∧
      (unpackBits u p p.bitCursor r).written =
        p.written ++ (List.range vs.length).map
          (fun k => ((p.bitCursor + k) % 128, vs.getD k 0)) ∧
      (∀ e ∈ (List.range vs.length).map (fun k => ((p.bitCursor + k) % 128, vs.getD k 0)),
        e.1 < 128) ∧
      (unpackBits u p p.bitCursor r).bitCursor = (p.bitCursor + vs.length) % 128 ∧
      (unpackBits u p p.bitCursor r).bitCursor < 128 ∧
      (unpackBits u p p.bitCursor r).DMABuf.length = p.DMABuf.length ∧
      (∀ i, i < 128 → availOf p.bitCursor r ≤ (i + 128 - p.bitCursor) % 128 →
        (unpackBits u p p.bitCursor r).DMABuf.getD i 0 = p.DMABuf.getD i 0 ∧
        ∀ k, k < vs.length → (p.bitCursor + k) % 128 ≠ i) := by
  have ha := availOf_eq p.bitCursor r hw hr
  obtain ⟨n, hn, vs, hl, hv, hc, hd⟩ := unpackAvail_appended u p (availOf p.bitCursor r) hw
  have hq : unpackBits u p p.bitCursor r = unpackAvail u p (availOf p.bitCursor r) := rfl
  have hlt : availOf p.bitCursor r < 128 := by
    rw [ha]; exact Nat.mod_lt _ (by decide)
  refine ⟨ha, rfl, vs, by rw [hl]; exact hn, ?_, ?_, ?_, ?_, ?_, ?_⟩
  · rw [hq, hv]
    rfl
  · intro e he
    rw [List.mem_map] at he
    obtain ⟨k, _, hk⟩ := he
    rw [← hk]
    exact Nat.mod_lt _ (by decide)
  · rw [hq, hc, hl]
    rfl
  · rw [hq, hc]
    exact Nat.mod_lt _ (by decide)
  · rw [hq, hd, writeSlots_DMABuf_length]
  · intro i hi hfar
    have hne : ∀ k, k < vs.length → (p.bitCursor + k) % 128 ≠ i := by
      intro k hk
      simp only [DMABUF_COUNT] at hw
      omega
    refine ⟨?_, hne⟩
    rw [hq, hd]
    apply writeSlots_DMABuf_other p vs i hw
    intro j hj
    exact fun h => hne j hj h.symm

set_option maxRecDepth 1000000 in
theorem C18_writes_within_free_region_witness :
    availOf shownSys.pipe.bitCursor 24 = (24 + 128 - shownSys.pipe.bitCursor) % 128 ∧
    (itimer_ISR 24 ⟨shownSys.obj, shownSys.pipe⟩).pipe =
      unpackBits shownSys.obj shownSys.pipe shownSys.pipe.bitCursor 24 :=
  have h := C18_writes_within_free_region shownSys.obj shownSys.pipe 24
    (by rw [show shownSys.pipe.bitCursor = 0 from rfl]; decide) (by decide)
  ⟨h.1, h.2.1⟩

/-- C19: with `F_BUS` = 24,000,000 the interval `show()` computes in integer arithmetic,
`BIT_TICKS / (F_BUS / 1000000) * DMABUF_COUNT / 2`, is 64 microseconds and is the
period `show()` starts the interval timer with. It is positive, and twice the
interval is at most the time the consumer needs to drain the 128-slot ring,
128 * `BIT_TICKS` / 24 microseconds (5120 / 24, more than 213): the refill interrupt
fires at least twice per ring-drain time. -/
theorem C19_refill_cadence :
    F_BUS = 24000000 ∧
    BIT_TICKS / (F_BUS / 1000000) * DMABUF_COUNT / 2 = 64 ∧
    interval = 64 ∧
    (∀ s : Sys, (showArm s).pipe.itimerInterval = interval ∧
      (showArm s).pipe.itimerOn = true) ∧
    0 < interval ∧
    2 * interval ≤ DMABUF_COUNT * BIT_TICKS / 24 ∧
    interval ≤ DMABUF_COUNT * BIT_TICKS / 24 / 2 ∧
    2 * interval * 24 ≤ DMABUF_COUNT * BIT_TICKS := by
  refine ⟨rfl, by decide, by decide, fun _ => ⟨rfl, rfl⟩, by decide, by decide, by decide,
    by decide⟩

end UniWSDriver
